import Mathlib

/-!
The OBJ mesh loader of `mesh.cpp`.

A shallow embedding of `Mesh::Mesh(std::string, bool)`, `Mesh::CalculateTangents`,
`Mesh::DrawInstanced` and `Mesh::SetupBuffers`, and the properties of them that
the specification states.

Conventions of the embedding:
* a `char*` is a `List Char` (the characters before the terminating NUL), a null
  `char*` is `none`;
* `float` is a type parameter `F` with the operations the code uses collected in
  `FloatOps F`; nothing is assumed about them unless a theorem says so;
* a run of C++ code that throws out of the constructor or leaves defined
  behaviour ends in a `Fault`;
* `int` is 32 bits wide.
-/

namespace ObjMesh

/-! ## Outcomes of a run -/

/-- Ways in which a run of the code ends without a result. -/
inductive Fault where
  /-- `std::invalid_argument`, thrown by `std::stoi` and `std::stof`. -/
  | invalidArgument
  /-- `std::out_of_range`, thrown by `std::stoi` and `std::stof`. -/
  | outOfRange
  /-- A null `char*` returned by `strtok` is converted to `std::string`. -/
  | nullToken
  /-- An unchecked `operator[]` reads outside its `std::vector`. -/
  | outOfBoundsRead
  /-- An `int` computation leaves the range of `int`. -/
  | signedOverflow
  /-- A loop whose 32-bit counter wraps around and which never ends. -/
  | diverges
  /-- The step budget of a model loop is used up (excluded by `parseCorners_budget`). -/
  | budget
  deriving DecidableEq, Repr

deriving instance DecidableEq for Except

/-- An unchecked `xs[i]` on a `std::vector` with an `int` index. -/
def vecAt {α : Type} (xs : List α) (i : Int) : Except Fault α :=
  if 0 ≤ i then
    match xs.get? i.toNat with
    | some a => .ok a
    | none => .error .outOfBoundsRead
  else .error .outOfBoundsRead

/-! ## Floats and the glm vectors -/

/-- The operations on `float` that the code uses. -/
structure FloatOps (F : Type) where
  /-- `std::stof` on a non-null token. -/
  stof : List Char → Except Fault F
  /-- The comparison `==`. -/
  eq : F → F → Bool
  /-- The literal `0.0f`. -/
  zero : F
  /-- The literal `1.0f`. -/
  one : F
  add : F → F → F
  sub : F → F → F
  mul : F → F → F
  div : F → F → F
  /-- The function `glm::inversesqrt`. -/
  inversesqrt : F → F

/-- The type `glm::vec2`. -/
structure Vec2 (F : Type) where
  x : F
  y : F
  deriving DecidableEq, Repr

/-- The type `glm::vec3`. -/
structure Vec3 (F : Type) where
  x : F
  y : F
  z : F
  deriving DecidableEq, Repr

/-- The comparison `==` of `glm::vec2`: all components compare equal. -/
def Vec2.eq {F : Type} (ops : FloatOps F) (a b : Vec2 F) : Bool :=
  ops.eq a.x b.x && ops.eq a.y b.y

/-- The comparison `==` of `glm::vec3`: all components compare equal. -/
def Vec3.eq {F : Type} (ops : FloatOps F) (a b : Vec3 F) : Bool :=
  ops.eq a.x b.x && ops.eq a.y b.y && ops.eq a.z b.z

/-- The value `glm::vec3()`. -/
def Vec3.zero {F : Type} (ops : FloatOps F) : Vec3 F := ⟨ops.zero, ops.zero, ops.zero⟩

/-- The vertex record `Vertex3dUVNormal`. -/
structure Vertex3dUVNormal (F : Type) where
  m_position : Vec3 F
  m_texCoord : Vec2 F
  m_normal : Vec3 F
  m_tangent : Vec3 F
  deriving DecidableEq, Repr

/-! ## The C library functions the parser calls -/

/-- The characters of a `std::string` seen through `&line[0]` as a C string. -/
def cstr (line : List Char) : List Char :=
  line.takeWhile (fun c => c != Char.ofNat 0)

/-- Whether `strncmp(lit, s, n) == 0`, for a literal `lit` of at least `n`
characters and a C string `s`. -/
def strncmp0 (lit s : List Char) (n : Nat) : Bool :=
  decide (lit.take n = s.take n)

/-- One call of `strtok` with the one-character delimiter string `delim`, on the
saved position `s`: the token (or null) and the new saved position. -/
def strtok (delim : Char) (s : List Char) : Option (List Char) × List Char :=
  match s.dropWhile (fun c => c == delim) with
  | [] => (none, [])
  | c :: cs =>
    (some ((c :: cs).takeWhile (fun d => d != delim)),
      ((c :: cs).dropWhile (fun d => d != delim)).drop 1)

/-- The function `isspace` in the C locale. -/
def isspace (c : Char) : Bool :=
  c.toNat == 32 || (9 ≤ c.toNat && c.toNat ≤ 13)

/-- The function `isdigit`. -/
def isdigit (c : Char) : Bool :=
  48 ≤ c.toNat && c.toNat ≤ 57

/-- The value of a run of decimal digits. -/
def digitsVal (ds : List Char) : Nat :=
  ds.foldl (fun a c => 10 * a + (c.toNat - 48)) 0

/-- The sign and the rest of the subject sequence of `strtol`. -/
def signOf : List Char → Bool × List Char
  | c :: r => if c = '-' then (true, r) else if c = '+' then (false, r) else (false, c :: r)
  | [] => (false, [])

/-- The function `std::stoi(token)` on a non-null token: leading white space, an
optional sign, then decimal digits up to the first other character. -/
def stoi (token : List Char) : Except Fault Int :=
  let sr := signOf (token.dropWhile isspace)
  let ds := sr.2.takeWhile isdigit
  if ds = [] then .error .invalidArgument
  else
    let v : Int := if sr.1 then -(digitsVal ds : Int) else (digitsVal ds : Int)
    if v < -2147483648 ∨ 2147483647 < v then .error .outOfRange else .ok v

/-- The expression `std::stoi(token) - 1` on a token that may be null. -/
def stoiMinus1 : Option (List Char) → Except Fault Int
  | none => .error .nullToken
  | some token =>
    match stoi token with
    | .ok v => if v = -2147483648 then .error .signedOverflow else .ok (v - 1)
    | .error e => .error e

/-- The expression `std::stof(token)` on a token that may be null. -/
def stofTok {F : Type} (ops : FloatOps F) : Option (List Char) → Except Fault F
  | none => .error .nullToken
  | some token => ops.stof token

/-- The lines that successive `std::getline(file, line)` calls deliver. -/
def getlinesAux (cur : List Char) : List Char → List (List Char)
  | [] => if cur = [] then [] else [cur.reverse]
  | c :: cs =>
    if c = Char.ofNat 10 then cur.reverse :: getlinesAux [] cs
    else getlinesAux (c :: cur) cs

/-- The lines of a file with the given content. -/
def getlines (content : String) : List (List Char) :=
  getlinesAux [] content.toList

/-! ## The parser: `Mesh::Mesh(std::string filePath, bool calcTangents)` -/

/-- The variables of the constructor while it reads the file: the three raw
streams and the two members it fills. -/
structure ParseState (F : Type) where
  vertices : List (Vec3 F)
  uvs : List (Vec2 F)
  normals : List (Vec3 F)
  m_vertices : List (Vertex3dUVNormal F)
  m_indices : List Nat
  deriving DecidableEq, Repr

/-- The state before the first line is read. -/
def ParseState.init (F : Type) : ParseState F := ⟨[], [], [], [], []⟩

/-- The resolved attributes `(vp, vt, vn)` of one face corner. -/
structure Corner (F : Type) where
  vp : Vec3 F
  vt : Vec2 F
  vn : Vec3 F
  deriving DecidableEq, Repr

/-- The test of lines 166 to 168: the corner compares equal to the vertex `other`. -/
def Corner.sameAs {F : Type} (ops : FloatOps F) (c : Corner F)
    (other : Vertex3dUVNormal F) : Bool :=
  Vec3.eq ops c.vp other.m_position && Vec2.eq ops c.vt other.m_texCoord &&
    Vec3.eq ops c.vn other.m_normal

/-- The vertex `Vertex3dUVNormal(vp, vt, vn, glm::vec3())` of line 182. -/
def Corner.toVertex {F : Type} (ops : FloatOps F) (c : Corner F) : Vertex3dUVNormal F :=
  ⟨c.vp, c.vt, c.vn, Vec3.zero ops⟩

/-- Lines 140 to 152: the loop condition takes the next token up to a slash; when
there is one, the three indices of the corner are read and looked up. The result
is `none` when the loop ends, else the corner and the saved `strtok` position. -/
def nextCorner {F : Type} (st : ParseState F) (rest : List Char) :
    Except Fault (Option (Corner F × List Char)) :=
  match strtok '/' rest with
  | (none, _) => .ok none
  | (some token, rest1) => do
    let i ← stoiMinus1 (some token)
    let vp ← vecAt st.vertices i
    let t2 := strtok '/' rest1
    let j ← stoiMinus1 t2.1
    let vt ← vecAt st.uvs j
    let t3 := strtok ' ' t2.2
    let k ← stoiMinus1 t3.1
    let vn ← vecAt st.normals k
    pure (some (⟨vp, vt, vn⟩, t3.2))

/-- The index of the first element that satisfies `p`: the `for` loop of lines
162 to 175 with its `break`. -/
def firstIndex {α : Type} (p : α → Bool) : List α → Option Nat
  | [] => none
  | a :: as => if p a then some 0 else (firstIndex p as).map (fun i => i + 1)

/-- Lines 159 to 183: the corner is looked for among the vertices emitted so far;
the vertex array after the step and the index pushed to `faceIndices`. The loop
counter is an `int`, which overflows when it has to pass `2^31 - 1`. -/
def addVertex {F : Type} (ops : FloatOps F) (m_vertices : List (Vertex3dUVNormal F))
    (c : Corner F) : Except Fault (List (Vertex3dUVNormal F) × Nat) :=
  match firstIndex (c.sameAs ops) m_vertices with
  | some i => if i < 2147483648 then .ok (m_vertices, i) else .error .signedOverflow
  | none =>
    if m_vertices.length < 2147483648 then
      .ok (m_vertices ++ [c.toVertex ops], m_vertices.length)
    else .error .signedOverflow

/-- The `while` loop of lines 140 to 184, from the saved `strtok` position `rest`:
the vertex array and `faceIndices` when the loop ends. Every round takes at
least one character from `rest`; `n` bounds the number of rounds. -/
def parseCorners {F : Type} (ops : FloatOps F) (st : ParseState F) :
    Nat → List Char → List (Vertex3dUVNormal F) → List Nat →
      Except Fault (List (Vertex3dUVNormal F) × List Nat)
  | 0, _, _, _ => .error .budget
  | n + 1, rest, m_vertices, faceIndices =>
    match nextCorner st rest with
    | .error e => .error e
    | .ok none => .ok (m_vertices, faceIndices)
    | .ok (some (c, rest1)) =>
      match addVertex ops m_vertices c with
      | .error e => .error e
      | .ok (mv, idx) => parseCorners ops st n rest1 mv (faceIndices ++ [idx])

/-- An unchecked `faceIndices[i]`. -/
def faceAt (faceIndices : List Nat) (i : Nat) : Except Fault Nat :=
  match faceIndices.get? i with
  | some a => .ok a
  | none => .error .outOfBoundsRead

/-- Lines 186 to 199: the first three face indices go to the index array, and
when the face has exactly four corners the indices 0, 2, 3 follow. -/
def emitFace (m_indices faceIndices : List Nat) : Except Fault (List Nat) := do
  let a ← faceAt faceIndices 0
  let b ← faceAt faceIndices 1
  let c ← faceAt faceIndices 2
  if faceIndices.length = 4 then do
    let d0 ← faceAt faceIndices 0
    let d2 ← faceAt faceIndices 2
    let d3 ← faceAt faceIndices 3
    pure (m_indices ++ [a, b, c] ++ [d0, d2, d3])
  else pure (m_indices ++ [a, b, c])

/-- The kind of a line, by the `strncmp` chain of lines 100, 112, 121 and 131. -/
inductive LineKind where
  | position
  | texCoord
  | normal
  | face
  | other
  deriving DecidableEq, Repr

/-- The branch the `if`/`else if` chain takes for a line. -/
def lineKind (line : List Char) : LineKind :=
  let s := cstr line
  if strncmp0 ['v', ' '] s 2 then .position
  else if strncmp0 ['v', 't'] s 2 then .texCoord
  else if strncmp0 ['v', 'n'] s 2 then .normal
  else if strncmp0 ['f'] s 1 then .face
  else .other

/-- Three floats after the first word of the line: lines 104 to 108 and 124 to 127. -/
def readVec3 {F : Type} (ops : FloatOps F) (s : List Char) : Except Fault (Vec3 F) := do
  let t0 := strtok ' ' s
  let t1 := strtok ' ' t0.2
  let x ← stofTok ops t1.1
  let t2 := strtok ' ' t1.2
  let y ← stofTok ops t2.1
  let t3 := strtok ' ' t2.2
  let z ← stofTok ops t3.1
  pure ⟨x, y, z⟩

/-- Two floats after the first word of the line: lines 115 to 117. -/
def readVec2 {F : Type} (ops : FloatOps F) (s : List Char) : Except Fault (Vec2 F) := do
  let t0 := strtok ' ' s
  let t1 := strtok ' ' t0.2
  let u ← stofTok ops t1.1
  let t2 := strtok ' ' t1.2
  let v ← stofTok ops t2.1
  pure ⟨u, v⟩

/-- The face branch, lines 134 to 199: the local `faceIndices` at the end of the
`while` loop, with the vertex array. -/
def faceCorners {F : Type} (ops : FloatOps F) (st : ParseState F) (line : List Char) :
    Except Fault (List (Vertex3dUVNormal F) × List Nat) :=
  parseCorners ops st ((cstr line).length + 1) (strtok ' ' (cstr line)).2 st.m_vertices []

/-- The body of the `while (std::getline(file, line))` loop, lines 100 to 208. -/
def processLine {F : Type} (ops : FloatOps F) (st : ParseState F) (line : List Char) :
    Except Fault (ParseState F) :=
  match lineKind line with
  | .position => do
    let v ← readVec3 ops (cstr line)
    pure { st with vertices := st.vertices ++ [v] }
  | .texCoord => do
    let v ← readVec2 ops (cstr line)
    pure { st with uvs := st.uvs ++ [v] }
  | .normal => do
    let v ← readVec3 ops (cstr line)
    pure { st with normals := st.normals ++ [v] }
  | .face => do
    let r ← faceCorners ops st line
    let m ← emitFace st.m_indices r.2
    pure { st with m_vertices := r.1, m_indices := m }
  | .other => pure st

/-- The loop over the lines of the file. -/
def parseLines {F : Type} (ops : FloatOps F) :
    ParseState F → List (List Char) → Except Fault (ParseState F)
  | st, [] => .ok st
  | st, line :: lines =>
    match processLine ops st line with
    | .ok st1 => parseLines ops st1 lines
    | .error e => .error e

/-- The members `m_vertices` and `m_indices` of a mesh. -/
structure MeshData (F : Type) where
  m_vertices : List (Vertex3dUVNormal F)
  m_indices : List Nat
  deriving DecidableEq, Repr

/-- The parser on the content of a readable file: the two arrays the constructor
has built when the loop over the lines ends. -/
def parse {F : Type} (ops : FloatOps F) (content : String) : Except Fault (MeshData F) :=
  match parseLines ops (ParseState.init F) (getlines content) with
  | .ok st => .ok ⟨st.m_vertices, st.m_indices⟩
  | .error e => .error e

/-! ## The corners of a run, for stating properties of every corner -/

/-- One round of the corner loop as seen from outside: the state when the face
line is reached (the streams read before that face), the saved `strtok` position
at the start of the round (the text from the corner token on), the attributes the
round resolves and the index it pushes to `faceIndices`. -/
structure CornerEvent (F : Type) where
  streams : ParseState F
  pos : List Char
  corner : Corner F
  index : Nat
  deriving DecidableEq, Repr

/-- The rounds of the loop of `parseCorners`, in order. -/
def lineLog {F : Type} (ops : FloatOps F) (st : ParseState F) :
    Nat → List Char → List (Vertex3dUVNormal F) → List (CornerEvent F)
  | 0, _, _ => []
  | n + 1, rest, m_vertices =>
    match nextCorner st rest with
    | .ok (some (c, rest1)) =>
      match addVertex ops m_vertices c with
      | .ok (mv, idx) => ⟨st, rest, c, idx⟩ :: lineLog ops st n rest1 mv
      | .error _ => []
    | _ => []

/-- The rounds of the corner loop on a face line. -/
def faceLog {F : Type} (ops : FloatOps F) (st : ParseState F) (line : List Char) :
    List (CornerEvent F) :=
  lineLog ops st ((cstr line).length + 1) (strtok ' ' (cstr line)).2 st.m_vertices

/-- The rounds of the corner loop over all lines, in file order. -/
def cornerLog {F : Type} (ops : FloatOps F) :
    ParseState F → List (List Char) → List (CornerEvent F)
  | _, [] => []
  | st, line :: lines =>
    match processLine ops st line with
    | .ok st1 =>
      (if lineKind line = .face then faceLog ops st line else []) ++ cornerLog ops st1 lines
    | .error _ => []

/-- The three 1-based indices that the corner token `p/t/n` at a saved `strtok`
position spells, as `std::stoi` reads them. -/
def cornerIndices (rest : List Char) : Option (Int × Int × Int) :=
  let t1 := strtok '/' rest
  let t2 := strtok '/' t1.2
  let t3 := strtok ' ' t2.2
  match t1.1, t2.1, t3.1 with
  | some a, some b, some c =>
    match stoi a, stoi b, stoi c with
    | .ok p, .ok t, .ok n => some (p, t, n)
    | _, _, _ => none
  | _, _, _ => none

/-- The record with the 1-based index `p` of a raw stream. -/
def record {α : Type} (stream : List α) (p : Int) : Option α :=
  if 1 ≤ p then stream.get? (p - 1).toNat else none

/-- Deduplication as a list function: the corners are taken in order, each one
gets the index of the first vertex it compares equal to, or is appended. -/
def assign {F : Type} (ops : FloatOps F) :
    List (Vertex3dUVNormal F) → List (Corner F) → List (Vertex3dUVNormal F) × List Nat
  | vs, [] => (vs, [])
  | vs, c :: cs =>
    match firstIndex (c.sameAs ops) vs with
    | some i => ((assign ops vs cs).1, i :: (assign ops vs cs).2)
    | none =>
      ((assign ops (vs ++ [c.toVertex ops]) cs).1,
        vs.length :: (assign ops (vs ++ [c.toVertex ops]) cs).2)

/-- The attributes of a vertex that deduplication compares. -/
def Vertex3dUVNormal.corner {F : Type} (v : Vertex3dUVNormal F) : Corner F :=
  ⟨v.m_position, v.m_texCoord, v.m_normal⟩

/-- The corner `c` compares equal to the corner `d` in position, texture
coordinate and normal. -/
def Corner.same {F : Type} (ops : FloatOps F) (c d : Corner F) : Bool :=
  c.sameAs ops (d.toVertex ops)

/-- The corners that are left when every corner that compares equal to one of
the corners before it is removed; `seen` holds the corners before. -/
def keepFirstFrom {F : Type} (ops : FloatOps F) :
    List (Corner F) → List (Corner F) → List (Corner F)
  | _, [] => []
  | seen, c :: cs =>
    if seen.any (fun s => c.same ops s) then keepFirstFrom ops (seen ++ [c]) cs
    else c :: keepFirstFrom ops (seen ++ [c]) cs

/-- The list of corners with every corner that compares equal to an earlier one
removed, so that the first occurrence is kept. -/
def keepFirst {F : Type} (ops : FloatOps F) (cs : List (Corner F)) : List (Corner F) :=
  keepFirstFrom ops [] cs

/-- The comparison `==` of floats is symmetric. -/
def EqSymmetric {F : Type} (ops : FloatOps F) : Prop :=
  ∀ a b : F, ops.eq a b = true → ops.eq b a = true

/-- The comparison `==` of floats is transitive. -/
def EqTransitive {F : Type} (ops : FloatOps F) : Prop :=
  ∀ a b c : F, ops.eq a b = true → ops.eq b c = true → ops.eq a c = true

/-! ## The tangent pass: `Mesh::CalculateTangents` -/

/-- The operator `-` of `glm::vec3`. -/
def Vec3.sub {F : Type} (ops : FloatOps F) (a b : Vec3 F) : Vec3 F :=
  ⟨ops.sub a.x b.x, ops.sub a.y b.y, ops.sub a.z b.z⟩

/-- The operator `+` of `glm::vec3`, as `+=` uses it. -/
def Vec3.add {F : Type} (ops : FloatOps F) (a b : Vec3 F) : Vec3 F :=
  ⟨ops.add a.x b.x, ops.add a.y b.y, ops.add a.z b.z⟩

/-- The function `glm::dot` on `glm::vec3`. -/
def Vec3.dot {F : Type} (ops : FloatOps F) (a b : Vec3 F) : F :=
  ops.add (ops.add (ops.mul a.x b.x) (ops.mul a.y b.y)) (ops.mul a.z b.z)

/-- The function `glm::normalize` on `glm::vec3`: `v * inversesqrt(dot(v, v))`. -/
def Vec3.normalize {F : Type} (ops : FloatOps F) (v : Vec3 F) : Vec3 F :=
  ⟨ops.mul v.x (ops.inversesqrt (Vec3.dot ops v v)),
    ops.mul v.y (ops.inversesqrt (Vec3.dot ops v v)),
    ops.mul v.z (ops.inversesqrt (Vec3.dot ops v v))⟩

/-- Lines 273 to 277: the factor `f` of the triangle `v0, v1, v2`. -/
def tangentScale {F : Type} (ops : FloatOps F) (v0 v1 v2 : Vertex3dUVNormal F) : F :=
  let tex1 : Vec2 F :=
    ⟨ops.sub v1.m_texCoord.x v0.m_texCoord.x, ops.sub v2.m_texCoord.x v0.m_texCoord.x⟩
  let tex2 : Vec2 F :=
    ⟨ops.sub v1.m_texCoord.y v0.m_texCoord.y, ops.sub v2.m_texCoord.y v0.m_texCoord.y⟩
  ops.div ops.one (ops.sub (ops.mul tex1.x tex2.y) (ops.mul tex1.y tex2.x))

/-- The vector that lines 282 to 284 multiply by `f`:
`tex2.y * edge1 - tex2.x * edge2`, component by component. -/
def tangentNumerator {F : Type} (ops : FloatOps F) (v0 v1 v2 : Vertex3dUVNormal F) : Vec3 F :=
  let edge1 := Vec3.sub ops v1.m_position v0.m_position
  let edge2 := Vec3.sub ops v2.m_position v0.m_position
  let tex2 : Vec2 F :=
    ⟨ops.sub v1.m_texCoord.y v0.m_texCoord.y, ops.sub v2.m_texCoord.y v0.m_texCoord.y⟩
  ⟨ops.sub (ops.mul tex2.y edge1.x) (ops.mul tex2.x edge2.x),
    ops.sub (ops.mul tex2.y edge1.y) (ops.mul tex2.x edge2.y),
    ops.sub (ops.mul tex2.y edge1.z) (ops.mul tex2.x edge2.z)⟩

/-- Lines 269 to 284: the tangent of the triangle `v0, v1, v2`. -/
def triangleTangent {F : Type} (ops : FloatOps F) (v0 v1 v2 : Vertex3dUVNormal F) : Vec3 F :=
  let edge1 := Vec3.sub ops v1.m_position v0.m_position
  let edge2 := Vec3.sub ops v2.m_position v0.m_position
  let tex2 : Vec2 F :=
    ⟨ops.sub v1.m_texCoord.y v0.m_texCoord.y, ops.sub v2.m_texCoord.y v0.m_texCoord.y⟩
  let f := tangentScale ops v0 v1 v2
  ⟨ops.mul f (ops.sub (ops.mul tex2.y edge1.x) (ops.mul tex2.x edge2.x)),
    ops.mul f (ops.sub (ops.mul tex2.y edge1.y) (ops.mul tex2.x edge2.y)),
    ops.mul f (ops.sub (ops.mul tex2.y edge1.z) (ops.mul tex2.x edge2.z))⟩

/-- The statement `m_vertices[i].m_tangent += t`. -/
def addTangent {F : Type} (ops : FloatOps F) :
    List (Vertex3dUVNormal F) → Nat → Vec3 F → List (Vertex3dUVNormal F)
  | [], _, _ => []
  | v :: vs, 0, t => { v with m_tangent := Vec3.add ops v.m_tangent t } :: vs
  | v :: vs, i + 1, t => v :: addTangent ops vs i t

/-- An unchecked `m_vertices[i]` with an unsigned index. -/
def vertexAt {F : Type} (vs : List (Vertex3dUVNormal F)) (i : Nat) :
    Except Fault (Vertex3dUVNormal F) :=
  match vs.get? i with
  | some v => .ok v
  | none => .error .outOfBoundsRead

/-- The loop of lines 262 to 289 over the index array, three indices a round,
for an index array of fewer than `2^32` entries. -/
def tangentPass {F : Type} (ops : FloatOps F) :
    List Nat → List (Vertex3dUVNormal F) → Except Fault (List (Vertex3dUVNormal F))
  | [], vs => .ok vs
  | [_], _ => .error .outOfBoundsRead
  | [_, _], _ => .error .outOfBoundsRead
  | i0 :: i1 :: i2 :: rest, vs =>
    match vertexAt vs i0, vertexAt vs i1, vertexAt vs i2 with
    | .ok v0, .ok v1, .ok v2 =>
      tangentPass ops rest
        (addTangent ops (addTangent ops (addTangent ops vs i0 (triangleTangent ops v0 v1 v2))
          i1 (triangleTangent ops v0 v1 v2)) i2 (triangleTangent ops v0 v1 v2))
    | _, _, _ => .error .outOfBoundsRead

/-- The loop of lines 291 to 294: every tangent is normalised. -/
def normalizeTangents {F : Type} (ops : FloatOps F) (vs : List (Vertex3dUVNormal F)) :
    List (Vertex3dUVNormal F) :=
  vs.map (fun v => { v with m_tangent := Vec3.normalize ops v.m_tangent })

/-- The method `Mesh::CalculateTangents`. Both loops count in an `unsigned int`,
which wraps around below an array of `2^32` or more entries, so that the loop
does not end. -/
def CalculateTangents {F : Type} (ops : FloatOps F) (m : MeshData F) :
    Except Fault (MeshData F) :=
  if 4294967296 ≤ m.m_indices.length then .error .diverges
  else
    match tangentPass ops m.m_indices m.m_vertices with
    | .error e => .error e
    | .ok acc =>
      if 4294967296 ≤ acc.length then .error .diverges
      else .ok { m with m_vertices := normalizeTangents ops acc }

/-- The factor of a triangle in the words of the specification:
`f = 1 / (du1 * dv2 - dv1 * du2)`. -/
def specScale {F : Type} (ops : FloatOps F) (v0 v1 v2 : Vertex3dUVNormal F) : F :=
  let du1 := ops.sub v1.m_texCoord.x v0.m_texCoord.x
  let du2 := ops.sub v2.m_texCoord.x v0.m_texCoord.x
  let dv1 := ops.sub v1.m_texCoord.y v0.m_texCoord.y
  let dv2 := ops.sub v2.m_texCoord.y v0.m_texCoord.y
  ops.div ops.one (ops.sub (ops.mul du1 dv2) (ops.mul dv1 du2))

/-- The tangent of a triangle in the words of the specification:
`f * (dv2 * e1 - dv1 * e2)`. -/
def specTangent {F : Type} (ops : FloatOps F) (v0 v1 v2 : Vertex3dUVNormal F) : Vec3 F :=
  let e1 := Vec3.sub ops v1.m_position v0.m_position
  let e2 := Vec3.sub ops v2.m_position v0.m_position
  let dv1 := ops.sub v1.m_texCoord.y v0.m_texCoord.y
  let dv2 := ops.sub v2.m_texCoord.y v0.m_texCoord.y
  let f := specScale ops v0 v1 v2
  ⟨ops.mul f (ops.sub (ops.mul dv2 e1.x) (ops.mul dv1 e2.x)),
    ops.mul f (ops.sub (ops.mul dv2 e1.y) (ops.mul dv1 e2.y)),
    ops.mul f (ops.sub (ops.mul dv2 e1.z) (ops.mul dv1 e2.z))⟩

/-- The tangents that the triangles of the index array contribute to the vertex
`k`, in the order of the triangles: one for every corner of a triangle that
refers to `k`. -/
def contributions {F : Type} (ops : FloatOps F) (vs : List (Vertex3dUVNormal F)) :
    List Nat → Nat → List (Vec3 F)
  | i0 :: i1 :: i2 :: rest, k =>
    match vs.get? i0, vs.get? i1, vs.get? i2 with
    | some v0, some v1, some v2 =>
      (if i0 = k then [specTangent ops v0 v1 v2] else []) ++
        (if i1 = k then [specTangent ops v0 v1 v2] else []) ++
        (if i2 = k then [specTangent ops v0 v1 v2] else []) ++ contributions ops vs rest k
    | _, _, _ => []
  | _, _ => []

/-- The sum of a list of vectors added one after the other to `start`. -/
def sumFrom {F : Type} (ops : FloatOps F) (start : Vec3 F) (ts : List (Vec3 F)) : Vec3 F :=
  ts.foldl (Vec3.add ops) start

/-- The square of the length of a vector, written out: `x*x + y*y + z*z`. -/
def specSquaredLength {F : Type} (ops : FloatOps F) (t : Vec3 F) : F :=
  ops.add (ops.add (ops.mul t.x t.x) (ops.mul t.y t.y)) (ops.mul t.z t.z)

/-- Normalisation in the words of the specification, written out: every
component of the vector times one over the square root of `x*x + y*y + z*z`. -/
def specNormalized {F : Type} (ops : FloatOps F) (t : Vec3 F) : Vec3 F :=
  ⟨ops.mul t.x (ops.inversesqrt (specSquaredLength ops t)),
    ops.mul t.y (ops.inversesqrt (specSquaredLength ops t)),
    ops.mul t.z (ops.inversesqrt (specSquaredLength ops t))⟩

/-- Multiplication of floats is commutative. -/
def MulCommutative {F : Type} (ops : FloatOps F) : Prop :=
  ∀ a b : F, ops.mul a b = ops.mul b a

/-- The operations are exact on the values 0 and 1, as far as the single
triangle of the specification needs them. -/
structure ExactOnZeroOne {F : Type} (ops : FloatOps F) : Prop where
  sub_zero_zero : ops.sub ops.zero ops.zero = ops.zero
  sub_one_zero : ops.sub ops.one ops.zero = ops.one
  mul_zero_zero : ops.mul ops.zero ops.zero = ops.zero
  mul_zero_one : ops.mul ops.zero ops.one = ops.zero
  mul_one_zero : ops.mul ops.one ops.zero = ops.zero
  mul_one_one : ops.mul ops.one ops.one = ops.one
  div_one_one : ops.div ops.one ops.one = ops.one
  add_zero_zero : ops.add ops.zero ops.zero = ops.zero
  add_zero_one : ops.add ops.zero ops.one = ops.one
  add_one_zero : ops.add ops.one ops.zero = ops.one
  inversesqrt_one : ops.inversesqrt ops.one = ops.one

/-- The single triangle of the specification: positions `(0,0,0)`, `(1,0,0)`,
`(0,1,0)` and texture coordinates `(0,0)`, `(1,0)`, `(0,1)`, with given normals
and tangents. -/
def unitTriangle {F : Type} (ops : FloatOps F) (n0 n1 n2 t0 t1 t2 : Vec3 F) : MeshData F :=
  ⟨[⟨⟨ops.zero, ops.zero, ops.zero⟩, ⟨ops.zero, ops.zero⟩, n0, t0⟩,
    ⟨⟨ops.one, ops.zero, ops.zero⟩, ⟨ops.one, ops.zero⟩, n1, t1⟩,
    ⟨⟨ops.zero, ops.one, ops.zero⟩, ⟨ops.zero, ops.one⟩, n2, t2⟩], [0, 1, 2]⟩

/-! ## The graphics layer, as far as the mesh uses it -/

/-- The type `glm::vec4`. -/
structure Vec4 (F : Type) where
  x : F
  y : F
  z : F
  w : F
  deriving DecidableEq, Repr

/-- The type `glm::mat4`: four columns. -/
structure Mat4 (F : Type) where
  c0 : Vec4 F
  c1 : Vec4 F
  c2 : Vec4 F
  c3 : Vec4 F
  deriving DecidableEq, Repr

/-- The size of a `float` in bytes. -/
def sizeofFloat : Nat := 4

/-- The value of `sizeof(glm::vec2)`. -/
def sizeofVec2 : Nat := 2 * sizeofFloat

/-- The value of `sizeof(glm::vec3)`. -/
def sizeofVec3 : Nat := 3 * sizeofFloat

/-- Modelled from the spec: the header that declares `Vertex3dUVNormal` is not
among the sources; by the vertex layout contract the record is a position of
three floats, a texture coordinate of two, a normal of three and a tangent of
three, one right after the other, which makes `sizeof(Vertex3dUVNormal)`. -/
def sizeofVertex3dUVNormal : Nat := sizeofVec3 + sizeofVec2 + sizeofVec3 + sizeofVec3

/-- The size of an `unsigned int` in bytes. -/
def sizeofUnsignedInt : Nat := 4

/-- What a call of `glBufferData` copies into a data store. -/
inductive BufferContent (F : Type) where
  | vertices (vs : List (Vertex3dUVNormal F))
  | indices (is : List Nat)
  | matrices (ms : List (Mat4 F))
  deriving DecidableEq, Repr

/-- The data store of a buffer object: its size in bytes and its content. -/
structure DataStore (F : Type) where
  size : Nat
  content : BufferContent F
  deriving DecidableEq, Repr

/-- What `glVertexAttribPointer` records for an attribute slot, with the buffer
that is bound to `GL_ARRAY_BUFFER` at the call. -/
structure AttribPointer where
  size : Nat
  normalized : Bool
  stride : Nat
  offset : Nat
  buffer : Nat
  deriving DecidableEq, Repr

/-- The state of one attribute slot of a vertex array object; all slots hold
`GL_FLOAT` components. -/
structure AttribSlot where
  pointer : Option AttribPointer
  enabled : Bool
  divisor : Nat
  deriving DecidableEq, Repr

/-- An attribute slot nothing has been done to. -/
def AttribSlot.fresh : AttribSlot := ⟨none, false, 0⟩

/-- The state of a vertex array object: its attribute slots and its
`GL_ELEMENT_ARRAY_BUFFER` binding. -/
structure VertexArray where
  attribs : Nat → AttribSlot
  elementBuffer : Nat

/-- A vertex array object as `glGenVertexArrays` delivers it. -/
def VertexArray.fresh : VertexArray := ⟨fun _ => AttribSlot.fresh, 0⟩

/-- A draw call of `GL_TRIANGLES` with `GL_UNSIGNED_INT` indices from offset 0, as
the graphics layer receives it: the vertex array bound at the call, the index
count, and the instance count of `glDrawElementsInstanced` (`none` for
`glDrawElements`). -/
structure DrawCall where
  vertexArray : Nat
  count : Nat
  instances : Option Nat
  deriving DecidableEq, Repr

/-- The state of the graphics layer that the mesh reads or writes. Names of
objects are natural numbers, 0 is no object. The counts are recorded as the code
passes them, before any conversion to the parameter types of the layer. -/
structure GLState (F : Type) where
  arrayBuffer : Nat
  vertexArray : Nat
  stores : Nat → Option (DataStore F)
  vertexArrays : Nat → VertexArray
  lastBuffer : Nat
  lastVertexArray : Nat
  draws : List DrawCall

/-- The call `glGenBuffers(1, &name)`: an unused buffer name. -/
def glGenBuffers {F : Type} (g : GLState F) : Nat × GLState F :=
  (g.lastBuffer + 1, { g with lastBuffer := g.lastBuffer + 1 })

/-- The call `glGenVertexArrays(1, &name)`: an unused vertex array name, whose
object is in its initial state. -/
def glGenVertexArrays {F : Type} (g : GLState F) : Nat × GLState F :=
  (g.lastVertexArray + 1,
    { g with lastVertexArray := g.lastVertexArray + 1,
             vertexArrays := Function.update g.vertexArrays (g.lastVertexArray + 1)
               VertexArray.fresh })

/-- The call `glBindBuffer(GL_ARRAY_BUFFER, name)`. -/
def glBindArrayBuffer {F : Type} (name : Nat) (g : GLState F) : GLState F :=
  { g with arrayBuffer := name }

/-- The call `glBindBuffer(GL_ELEMENT_ARRAY_BUFFER, name)`: the binding belongs to
the bound vertex array. -/
def glBindElementArrayBuffer {F : Type} (name : Nat) (g : GLState F) : GLState F :=
  { g with vertexArrays := Function.update g.vertexArrays g.vertexArray
             ⟨(g.vertexArrays g.vertexArray).attribs, name⟩ }

/-- The call `glBufferData(GL_ARRAY_BUFFER, size, data, GL_STATIC_DRAW)`: the
buffer bound to `GL_ARRAY_BUFFER` gets a new data store; without a bound buffer
the call is an error and changes nothing. -/
def glBufferData {F : Type} (size : Nat) (data : BufferContent F) (g : GLState F) :
    GLState F :=
  { g with stores := if g.arrayBuffer = 0 then g.stores
                     else Function.update g.stores g.arrayBuffer (some ⟨size, data⟩) }

/-- The call `glBindVertexArray(name)`. -/
def glBindVertexArray {F : Type} (name : Nat) (g : GLState F) : GLState F :=
  { g with vertexArray := name }

/-- A change of one attribute slot of the bound vertex array. -/
def updateSlot {F : Type} (index : Nat) (f : AttribSlot → AttribSlot) (g : GLState F) :
    GLState F :=
  { g with vertexArrays := Function.update g.vertexArrays g.vertexArray
             ⟨Function.update (g.vertexArrays g.vertexArray).attribs index
                 (f ((g.vertexArrays g.vertexArray).attribs index)),
               (g.vertexArrays g.vertexArray).elementBuffer⟩ }

/-- The call `glVertexAttribPointer(index, size, GL_FLOAT, normalized, stride,
(void*)offset)`. -/
def glVertexAttribPointer {F : Type} (index size : Nat) (normalized : Bool)
    (stride offset : Nat) (g : GLState F) : GLState F :=
  updateSlot index
    (fun s => { s with pointer := some ⟨size, normalized, stride, offset, g.arrayBuffer⟩ }) g

/-- The call `glEnableVertexAttribArray(index)`. -/
def glEnableVertexAttribArray {F : Type} (index : Nat) (g : GLState F) : GLState F :=
  updateSlot index (fun s => { s with enabled := true }) g

/-- The call `glVertexAttribDivisor(index, divisor)`. -/
def glVertexAttribDivisor {F : Type} (index divisor : Nat) (g : GLState F) : GLState F :=
  updateSlot index (fun s => { s with divisor := divisor }) g

/-- The call `glDrawElements(GL_TRIANGLES, count, GL_UNSIGNED_INT, (void*)0)`. -/
def glDrawElements {F : Type} (count : Nat) (g : GLState F) : GLState F :=
  { g with draws := g.draws ++ [⟨g.vertexArray, count, none⟩] }

/-- The members of `Mesh`: the two arrays and the names of its five objects. -/
structure Mesh (F : Type) extends MeshData F where
  m_vertexBuffer : Nat
  m_indexBuffer : Nat
  m_instanceBuffer : Nat
  m_basicVAO : Nat
  m_instanceVAO : Nat
  deriving DecidableEq, Repr

/-- The method `Mesh::Draw`. -/
def Draw {F : Type} (mesh : Mesh F) (g : GLState F) : GLState F :=
  let g := glBindVertexArray mesh.m_basicVAO g
  let g := glDrawElements mesh.m_indices.length g
  glBindVertexArray 0 g

/-- Lines 336 to 339 and 365 to 368: the four attribute pointers of a vertex. -/
def vertexAttribPointers {F : Type} (g : GLState F) : GLState F :=
  let g := glVertexAttribPointer 0 3 false sizeofVertex3dUVNormal 0 g
  let g := glVertexAttribPointer 1 2 false sizeofVertex3dUVNormal sizeofVec3 g
  let g := glVertexAttribPointer 2 3 true sizeofVertex3dUVNormal (sizeofVec3 + sizeofVec2) g
  glVertexAttribPointer 3 3 true sizeofVertex3dUVNormal (2 * sizeofVec3 + sizeofVec2) g

/-- The body of the loop of lines 377 to 384 for one `i`. -/
def instanceAttrib {F : Type} (g : GLState F) (i : Nat) : GLState F :=
  let g := glVertexAttribPointer (4 + i) 4 false (sizeofFloat * 16) (sizeofFloat * 4 * i) g
  glVertexAttribDivisor (4 + i) 1 g

/-- The method `Mesh::SetupBuffers` on the two arrays of the mesh. The
expressions `&m_vertices[0]` and `&m_indices[0]` apply the unchecked `operator[]`
and need a first element. -/
def SetupBuffers {F : Type} (m : MeshData F) (g : GLState F) :
    Except Fault (Mesh F × GLState F) :=
  let r := glGenBuffers g
  let m_instanceBuffer := r.1
  let r := glGenBuffers r.2
  let m_vertexBuffer := r.1
  let g := glBindArrayBuffer m_vertexBuffer r.2
  if m.m_vertices.length = 0 then .error .outOfBoundsRead
  else
    let g := glBufferData (m.m_vertices.length * sizeofVertex3dUVNormal)
      (.vertices m.m_vertices) g
    let g := glBindArrayBuffer 0 g
    let r := glGenBuffers g
    let m_indexBuffer := r.1
    let g := glBindArrayBuffer m_indexBuffer r.2
    if m.m_indices.length = 0 then .error .outOfBoundsRead
    else
      let g := glBufferData (m.m_indices.length * sizeofUnsignedInt) (.indices m.m_indices) g
      let g := glBindArrayBuffer 0 g
      -- the basic layout
      let r := glGenVertexArrays g
      let m_basicVAO := r.1
      let g := glBindVertexArray m_basicVAO r.2
      let g := glBindArrayBuffer m_vertexBuffer g
      let g := vertexAttribPointers g
      let g := glBindArrayBuffer 0 g
      let g := glEnableVertexAttribArray 0 g
      let g := glEnableVertexAttribArray 1 g
      let g := glEnableVertexAttribArray 2 g
      let g := glEnableVertexAttribArray 3 g
      let g := glBindElementArrayBuffer m_indexBuffer g
      -- the instanced layout
      let r := glGenVertexArrays g
      let m_instanceVAO := r.1
      let g := glBindVertexArray m_instanceVAO r.2
      let g := glBindArrayBuffer m_vertexBuffer g
      let g := vertexAttribPointers g
      let g := glBindArrayBuffer m_instanceBuffer g
      let g := [0, 1, 2, 3].foldl instanceAttrib g
      let g := glBindArrayBuffer 0 g
      let g := [0, 1, 2, 3, 4, 5, 6, 7].foldl (fun g i => glEnableVertexAttribArray i g) g
      let g := glBindElementArrayBuffer m_indexBuffer g
      let g := glBindVertexArray 0 g
      .ok (⟨m, m_vertexBuffer, m_indexBuffer, m_instanceBuffer, m_basicVAO, m_instanceVAO⟩, g)

/-- The state of the graphics layer before any object exists. -/
def GLState.initial (F : Type) : GLState F :=
  ⟨0, 0, fun _ => none, fun _ => VertexArray.fresh, 0, 0, []⟩

/-! ## A float instance for closed examples -/

/-- Floats that are whole numbers below `2^24` in size, which `float` holds
exactly and on which `==` is equality: `stof` reads a decimal integer literal,
and no other token is covered. The arithmetic is that of the whole numbers;
`div` is meant where the quotient is whole and `inversesqrt` at 1 only. -/
def wholeOps : FloatOps Int where
  stof := fun token =>
    match stoi token with
    | .ok v => if v < -16777216 ∨ 16777216 < v then .error .outOfRange else .ok v
    | .error e => .error e
  eq := fun a b => decide (a = b)
  zero := 0
  one := 1
  add := fun a b => a + b
  sub := fun a b => a - b
  mul := fun a b => a * b
  div := fun a b => a / b
  inversesqrt := fun a => a

/-- A fragment of the IEEE 754 floats: the whole numbers up to `2^24` in size
(`num 0` is the zero with the positive sign), the two infinities and NaN. The
value `other` stands for every float outside the fragment, among them the zero
with the negative sign and all numbers that are not whole; what is computed from
`other` is `other` again, so that a result without `other` is the result of the
float operations. -/
inductive Flt where
  | num (n : Int)
  | posInf
  | negInf
  | nan
  | other
  deriving DecidableEq, Repr

/-- A whole number as a float of the fragment. -/
def Flt.ofInt (n : Int) : Flt :=
  if n < -16777216 ∨ 16777216 < n then .other else .num n

/-- The sum of two floats. -/
def Flt.add : Flt → Flt → Flt
  | .other, _ => .other
  | _, .other => .other
  | .nan, _ => .nan
  | _, .nan => .nan
  | .posInf, .negInf => .nan
  | .negInf, .posInf => .nan
  | .posInf, _ => .posInf
  | _, .posInf => .posInf
  | .negInf, _ => .negInf
  | _, .negInf => .negInf
  | .num a, .num b => Flt.ofInt (a + b)

/-- The difference of two floats. -/
def Flt.sub : Flt → Flt → Flt
  | .other, _ => .other
  | _, .other => .other
  | .nan, _ => .nan
  | _, .nan => .nan
  | .posInf, .posInf => .nan
  | .negInf, .negInf => .nan
  | .posInf, _ => .posInf
  | _, .negInf => .posInf
  | .negInf, _ => .negInf
  | _, .posInf => .negInf
  | .num a, .num b => Flt.ofInt (a - b)

/-- An infinity by the sign of a whole number that is not 0. -/
def Flt.infOfSign (n : Int) : Flt :=
  if 0 < n then .posInf else .negInf

/-- The product of two floats; a zero product with a negative factor is the
zero with the negative sign. -/
def Flt.mul : Flt → Flt → Flt
  | .other, _ => .other
  | _, .other => .other
  | .nan, _ => .nan
  | _, .nan => .nan
  | .posInf, .posInf => .posInf
  | .posInf, .negInf => .negInf
  | .negInf, .posInf => .negInf
  | .negInf, .negInf => .posInf
  | .posInf, .num b => if b = 0 then .nan else Flt.infOfSign b
  | .negInf, .num b => if b = 0 then .nan else Flt.infOfSign (-b)
  | .num a, .posInf => if a = 0 then .nan else Flt.infOfSign a
  | .num a, .negInf => if a = 0 then .nan else Flt.infOfSign (-a)
  | .num a, .num b => if a < 0 ∧ b = 0 ∨ a = 0 ∧ b < 0 then .other else Flt.ofInt (a * b)

/-- The quotient of two floats; the divisor `num 0` is the zero with the
positive sign. -/
def Flt.div : Flt → Flt → Flt
  | .other, _ => .other
  | _, .other => .other
  | .nan, _ => .nan
  | _, .nan => .nan
  | .posInf, .posInf => .nan
  | .posInf, .negInf => .nan
  | .negInf, .posInf => .nan
  | .negInf, .negInf => .nan
  | .posInf, .num b => if 0 ≤ b then .posInf else .negInf
  | .negInf, .num b => if 0 ≤ b then .negInf else .posInf
  | .num a, .posInf => if 0 ≤ a then .num 0 else .other
  | .num a, .negInf => if a < 0 then .num 0 else .other
  | .num a, .num b =>
    if b = 0 then (if a = 0 then .nan else Flt.infOfSign a)
    else if a = 0 then (if 0 < b then .num 0 else .other)
    else if b ∣ a then .num (a / b) else .other

/-- The function `glm::inversesqrt`, one over the square root. -/
def Flt.inversesqrt : Flt → Flt
  | .other => .other
  | .nan => .nan
  | .posInf => .num 0
  | .negInf => .nan
  | .num n => if n < 0 then .nan else if n = 0 then .posInf else if n = 1 then .num 1 else .other

/-- The comparison `==` of two floats; with `other` it is not determined and
given as false. -/
def Flt.eq : Flt → Flt → Bool
  | .num a, .num b => decide (a = b)
  | .posInf, .posInf => true
  | .negInf, .negInf => true
  | _, _ => false

/-- A fragment of the IEEE 754 floats with fractions: the multiples of 1/4 up to
`2^22` in size, which `float` holds exactly; `q n` is the float `n / 4`, so that
`q 0` is the zero with the positive sign, `q 1` is 0.25 and `q 4` is 1. The value
`other` stands for every float outside the fragment, among them the zero with
the negative sign, the infinities and NaN; what is computed from `other` is
`other` again, so that a result without `other` is the result of the float
operations. -/
inductive Qtr where
  | q (n : Int)
  | other
  deriving DecidableEq, Repr

/-- A number of quarters as a float of the fragment. -/
def Qtr.ofInt (n : Int) : Qtr :=
  if n < -16777216 ∨ 16777216 < n then .other else .q n

/-- The sum of two floats. -/
def Qtr.add : Qtr → Qtr → Qtr
  | .q a, .q b => Qtr.ofInt (a + b)
  | _, _ => .other

/-- The difference of two floats. -/
def Qtr.sub : Qtr → Qtr → Qtr
  | .q a, .q b => Qtr.ofInt (a - b)
  | _, _ => .other

/-- The product of two floats, inside the fragment when it is a multiple of 1/4;
a zero product with a negative factor is the zero with the negative sign. -/
def Qtr.mul : Qtr → Qtr → Qtr
  | .q a, .q b =>
    if a < 0 ∧ b = 0 ∨ a = 0 ∧ b < 0 then .other
    else if (a * b) % 4 = 0 then Qtr.ofInt (a * b / 4) else .other
  | _, _ => .other

/-- The quotient of two floats, inside the fragment when the divisor is not zero
and the quotient is a multiple of 1/4. -/
def Qtr.div : Qtr → Qtr → Qtr
  | .q a, .q b =>
    if b = 0 then .other
    else if a = 0 then (if 0 < b then .q 0 else .other)
    else if (4 * a) % b = 0 then Qtr.ofInt (4 * a / b) else .other
  | _, _ => .other

/-- The function `glm::inversesqrt`, one over the square root: inside the
fragment at 0.25, 1, 4 and 16, where it is 2, 1, 0.5 and 0.25. -/
def Qtr.inversesqrt : Qtr → Qtr
  | .q n =>
    if n = 1 then .q 8 else if n = 4 then .q 4 else if n = 16 then .q 2
    else if n = 64 then .q 1 else .other
  | .other => .other

/-- The comparison `==` of two floats; with `other` it is not determined and
given as false. -/
def Qtr.eq : Qtr → Qtr → Bool
  | .q a, .q b => decide (a = b)
  | _, _ => false

/-- The float operations on the fragment `Qtr`; `stof` reads a decimal integer
literal, and no other token is covered. -/
def quarterOps : FloatOps Qtr where
  stof := fun token =>
    match stoi token with
    | .ok v => if v < -4194304 ∨ 4194304 < v then .error .outOfRange else .ok (.q (4 * v))
    | .error e => .error e
  eq := Qtr.eq
  zero := .q 0
  one := .q 4
  add := Qtr.add
  sub := Qtr.sub
  mul := Qtr.mul
  div := Qtr.div
  inversesqrt := Qtr.inversesqrt

/-- A square of side 4 made of two triangles: the positions `(1,1,0)`, `(5,1,0)`,
`(5,5,0)`, `(1,5,0)`, the texture coordinates `(1,1)`, `(3,1)`, `(3,3)`, `(1,3)`,
the normal `(0,0,1)`, the given tangents, and the indices `0,1,2, 0,2,3`. -/
def squareMesh (t0 t1 t2 t3 : Vec3 Qtr) : MeshData Qtr :=
  ⟨[⟨⟨.q 4, .q 4, .q 0⟩, ⟨.q 4, .q 4⟩, ⟨.q 0, .q 0, .q 4⟩, t0⟩,
    ⟨⟨.q 20, .q 4, .q 0⟩, ⟨.q 12, .q 4⟩, ⟨.q 0, .q 0, .q 4⟩, t1⟩,
    ⟨⟨.q 20, .q 20, .q 0⟩, ⟨.q 12, .q 12⟩, ⟨.q 0, .q 0, .q 4⟩, t2⟩,
    ⟨⟨.q 4, .q 20, .q 0⟩, ⟨.q 4, .q 12⟩, ⟨.q 0, .q 0, .q 4⟩, t3⟩], [0, 1, 2, 0, 2, 3]⟩

/-! ## Predicates used in the proofs -/

/-- Every index in the index array refers to an emitted vertex. -/
def IndicesValid {F : Type} (st : ParseState F) : Prop :=
  ∀ i ∈ st.m_indices, i < st.m_vertices.length

/-- No later vertex compares equal to an earlier one. -/
def Distinct {F : Type} (ops : FloatOps F) (vs : List (Vertex3dUVNormal F)) : Prop :=
  vs.Pairwise (fun earlier later => later.corner.sameAs ops earlier = false)

/-- The position and the texture coordinate of a vertex. -/
def geometry {F : Type} (v : Vertex3dUVNormal F) : Vec3 F × Vec2 F :=
  (v.m_position, v.m_texCoord)

/-- Whether a line is of one of the four record kinds, by the tests of the code. -/
def isRecord (line : List Char) : Bool :=
  decide (lineKind line ≠ .other)

/-- Whether the text `l` begins with the characters `lit`. -/
def beginsWith : List Char → List Char → Bool
  | [], _ => true
  | _ :: _, [] => false
  | a :: lit, b :: l => a == b && beginsWith lit l

/-- Whether a line begins with one of the four markers that the parser looks
for: the letter v and a blank, the letters vt, the letters vn, or the letter f. -/
def beginsWithMarker (l : List Char) : Bool :=
  beginsWith ['v', ' '] l || beginsWith ['v', 't'] l || beginsWith ['v', 'n'] l ||
    beginsWith ['f'] l

/-- The leading token of a line: its characters before the first blank. -/
def leadingToken (l : List Char) : List Char :=
  l.takeWhile (fun c => c != ' ')

/-- The leading tokens of the four record kinds of the format. -/
def recordTokens : List (List Char) :=
  [['v'], ['v', 't'], ['v', 'n'], ['f']]

/-- The vertex array has at most `2^31` entries. -/
def VerticesBounded {F : Type} (vs : List (Vertex3dUVNormal F)) : Prop :=
  vs.length ≤ 2147483648

/-! ## Sample inputs for closed examples -/

/-- A small source: a triangle and a quad that share two corners. -/
def sampleSource : String :=
  "v 0 0 0\nv 1 0 0\nv 0 1 0\nv 1 1 0\nvt 0 0\nvt 1 0\nvn 0 0 1\n# two faces\nf 1/1/1 2/2/1 3/1/1\nf 2/2/1 4/1/1 3/1/1 1/1/1\n"

/-- The mesh the parser builds from `sampleSource`. -/
def sampleMesh : MeshData Int :=
  ⟨[⟨⟨0, 0, 0⟩, ⟨0, 0⟩, ⟨0, 0, 1⟩, ⟨0, 0, 0⟩⟩, ⟨⟨1, 0, 0⟩, ⟨1, 0⟩, ⟨0, 0, 1⟩, ⟨0, 0, 0⟩⟩,
    ⟨⟨0, 1, 0⟩, ⟨0, 0⟩, ⟨0, 0, 1⟩, ⟨0, 0, 0⟩⟩, ⟨⟨1, 1, 0⟩, ⟨0, 0⟩, ⟨0, 0, 1⟩, ⟨0, 0, 0⟩⟩],
    [0, 1, 2, 1, 3, 2, 1, 2, 0]⟩

/-- The state of the run on `sampleSource` when it reaches the first face line. -/
def sampleStreams : ParseState Int :=
  ⟨[⟨0, 0, 0⟩, ⟨1, 0, 0⟩, ⟨0, 1, 0⟩, ⟨1, 1, 0⟩], [⟨0, 0⟩, ⟨1, 0⟩], [⟨0, 0, 1⟩], [], []⟩

/-- The mesh that `SetupBuffers` makes of `sampleMesh` in the initial state. -/
def sampleResource : Mesh Int := ⟨sampleMesh, 2, 3, 1, 1, 2⟩

/-- The state of the graphics layer after `SetupBuffers` on `sampleMesh` in the
initial state. -/
def sampleGL : GLState Int :=
  match SetupBuffers sampleMesh (GLState.initial Int) with
  | .ok r => r.2
  | .error _ => GLState.initial Int

/-! ## Auxiliary facts -/

theorem firstIndex_some {α : Type} (p : α → Bool) (l : List α) (i : Nat)
    (h : firstIndex p l = some i) :
    ∃ a, l.get? i = some a ∧ p a = true ∧ ∀ j b, j < i → l.get? j = some b → p b = false := by
  induction l generalizing i with
  | nil => simp [firstIndex] at h
  | cons x xs ih =>
    unfold firstIndex at h
    by_cases hx : p x = true
    · simp only [hx, if_true, Option.some.injEq] at h
      subst h
      exact ⟨x, rfl, hx, fun j b hj => absurd hj (Nat.not_lt_zero j)⟩
    · simp only [hx, Bool.false_eq_true, if_false, Option.map_eq_some'] at h
      obtain ⟨k, hk, rfl⟩ := h
      obtain ⟨a, ha, hpa, hlt⟩ := ih k hk
      refine ⟨a, by simpa using ha, hpa, ?_⟩
      intro j b hj hb
      cases j with
      | zero =>
        simp only [List.get?_cons_zero, Option.some.injEq] at hb
        subst hb
        simpa using hx
      | succ j => exact hlt j b (by omega) (by simpa using hb)

theorem firstIndex_none {α : Type} (p : α → Bool) (l : List α)
    (h : firstIndex p l = none) : ∀ a ∈ l, p a = false := by
  induction l with
  | nil => simp
  | cons x xs ih =>
    unfold firstIndex at h
    by_cases hx : p x = true
    · simp [hx] at h
    · simp only [hx, Bool.false_eq_true, if_false, Option.map_eq_none'] at h
      intro a ha
      rcases List.mem_cons.1 ha with rfl | ha
      · simpa using hx
      · exact ih h a ha

theorem firstIndex_lt {α : Type} (p : α → Bool) (l : List α) (i : Nat)
    (h : firstIndex p l = some i) : i < l.length := by
  obtain ⟨a, ha, _⟩ := firstIndex_some p l i h
  exact (List.get?_eq_some.1 ha).1

/-- The two outcomes of a successful `addVertex`. -/
theorem addVertex_ok {F : Type} (ops : FloatOps F) (mv mv1 : List (Vertex3dUVNormal F))
    (c : Corner F) (idx : Nat) (h : addVertex ops mv c = .ok (mv1, idx)) :
    (firstIndex (c.sameAs ops) mv = some idx ∧ mv1 = mv) ∨
      (firstIndex (c.sameAs ops) mv = none ∧ mv1 = mv ++ [c.toVertex ops] ∧
        idx = mv.length) := by
  unfold addVertex at h
  split at h
  · split at h
    · simp only [Except.ok.injEq, Prod.mk.injEq] at h
      obtain ⟨rfl, rfl⟩ := h
      exact Or.inl ⟨by assumption, rfl⟩
    · cases h
  · split at h
    · simp only [Except.ok.injEq, Prod.mk.injEq] at h
      obtain ⟨rfl, rfl⟩ := h
      exact Or.inr ⟨by assumption, rfl, rfl⟩
    · cases h

theorem addVertex_lt {F : Type} (ops : FloatOps F) (mv mv1 : List (Vertex3dUVNormal F))
    (c : Corner F) (idx : Nat) (h : addVertex ops mv c = .ok (mv1, idx)) :
    mv.length ≤ mv1.length ∧ idx < mv1.length := by
  rcases addVertex_ok ops mv mv1 c idx h with ⟨h1, rfl⟩ | ⟨_, rfl, rfl⟩
  · exact ⟨le_refl _, firstIndex_lt _ _ _ h1⟩
  · simp

/-- One round of the corner loop, spelled out. -/
theorem parseCorners_succ_ok {F : Type} (ops : FloatOps F) (st : ParseState F) (n : Nat)
    (rest : List Char) (mv : List (Vertex3dUVNormal F)) (fi : List Nat)
    (r : List (Vertex3dUVNormal F) × List Nat)
    (h : parseCorners ops st (n + 1) rest mv fi = .ok r) :
    (nextCorner st rest = .ok none ∧ r = (mv, fi)) ∨
      ∃ c rest1 mv1 idx, nextCorner st rest = .ok (some (c, rest1)) ∧
        addVertex ops mv c = .ok (mv1, idx) ∧
        parseCorners ops st n rest1 mv1 (fi ++ [idx]) = .ok r := by
  unfold parseCorners at h
  split at h
  · cases h
  · simp only [Except.ok.injEq] at h
    exact Or.inl ⟨by assumption, h.symm⟩
  · split at h
    · cases h
    · exact Or.inr ⟨_, _, _, _, by assumption, by assumption, h⟩

theorem parseCorners_lt {F : Type} (ops : FloatOps F) (st : ParseState F) (n : Nat) :
    ∀ (rest : List Char) (mv : List (Vertex3dUVNormal F)) (fi : List Nat)
      (r : List (Vertex3dUVNormal F) × List Nat),
      parseCorners ops st n rest mv fi = .ok r → (∀ i ∈ fi, i < mv.length) →
      mv.length ≤ r.1.length ∧ ∀ i ∈ r.2, i < r.1.length := by
  induction n with
  | zero => intro rest mv fi r h; simp [parseCorners] at h
  | succ n ih =>
    intro rest mv fi r h hfi
    rcases parseCorners_succ_ok ops st n rest mv fi r h with ⟨_, rfl⟩ | ⟨c, rest1, mv1, idx, _, ha, hr⟩
    · exact ⟨le_refl _, hfi⟩
    · obtain ⟨hle, hidx⟩ := addVertex_lt ops mv mv1 c idx ha
      have := ih rest1 mv1 (fi ++ [idx]) r hr (by
        intro i hi
        rcases List.mem_append.1 hi with hi | hi
        · exact lt_of_lt_of_le (hfi i hi) hle
        · simp only [List.mem_singleton] at hi
          subst hi
          exact hidx)
      exact ⟨le_trans hle this.1, this.2⟩

theorem faceAt_ok (fi : List Nat) (i a : Nat) (h : faceAt fi i = .ok a) : fi.get? i = some a := by
  unfold faceAt at h
  split at h
  · simp only [Except.ok.injEq] at h
    subst h
    assumption
  · cases h

/-- What `emitFace` appends, by the number of corners. -/
theorem emitFace_ok (mi fi mi1 : List Nat) (h : emitFace mi fi = .ok mi1) :
    ∃ a b c, fi.get? 0 = some a ∧ fi.get? 1 = some b ∧ fi.get? 2 = some c ∧
      ((fi.length ≠ 4 ∧ mi1 = mi ++ [a, b, c]) ∨
        (fi.length = 4 ∧ ∃ d, fi.get? 3 = some d ∧ mi1 = mi ++ [a, b, c] ++ [a, c, d])) := by
  unfold emitFace at h
  cases ha : faceAt fi 0 with
  | error e => simp [ha, bind, Except.bind] at h
  | ok a =>
    cases hb : faceAt fi 1 with
    | error e => simp [ha, hb, bind, Except.bind] at h
    | ok b =>
      cases hc : faceAt fi 2 with
      | error e => simp [ha, hb, hc, bind, Except.bind] at h
      | ok c =>
        refine ⟨a, b, c, faceAt_ok _ _ _ ha, faceAt_ok _ _ _ hb, faceAt_ok _ _ _ hc, ?_⟩
        by_cases h4 : fi.length = 4
        · cases hd : faceAt fi 3 with
          | error e => simp [ha, hb, hc, hd, h4, bind, Except.bind] at h
          | ok d =>
            simp only [ha, hb, hc, hd, h4, bind, Except.bind, if_true, pure, Except.pure,
              Except.ok.injEq] at h
            exact Or.inr ⟨h4, d, faceAt_ok _ _ _ hd, h.symm⟩
        · simp only [ha, hb, hc, h4, bind, Except.bind, if_false, pure, Except.pure,
            Except.ok.injEq] at h
          exact Or.inl ⟨h4, h.symm⟩

theorem emitFace_mem (mi fi mi1 : List Nat) (h : emitFace mi fi = .ok mi1) :
    ∀ i ∈ mi1, i ∈ mi ∨ i ∈ fi := by
  obtain ⟨a, b, c, ha, hb, hc, hcase⟩ := emitFace_ok mi fi mi1 h
  have ma := List.get?_mem ha
  have mb := List.get?_mem hb
  have mc := List.get?_mem hc
  rcases hcase with ⟨_, rfl⟩ | ⟨_, d, hd, rfl⟩
  · intro i hi
    simp only [List.mem_append, List.mem_cons, List.mem_singleton, List.not_mem_nil,
      or_false] at hi
    rcases hi with hi | rfl | rfl | rfl
    · exact Or.inl hi
    all_goals exact Or.inr (by assumption)
  · have md := List.get?_mem hd
    intro i hi
    simp only [List.mem_append, List.mem_cons, List.mem_singleton, List.not_mem_nil,
      or_false] at hi
    rcases hi with (hi | rfl | rfl | rfl) | rfl | rfl | rfl
    · exact Or.inl hi
    all_goals exact Or.inr (by assumption)

/-- The cases of a successful `processLine`. -/
theorem processLine_ok {F : Type} (ops : FloatOps F) (st st1 : ParseState F)
    (line : List Char) (h : processLine ops st line = .ok st1) :
    (lineKind line = .position ∧ ∃ v, readVec3 ops (cstr line) = .ok v ∧
        st1 = { st with vertices := st.vertices ++ [v] }) ∨
      (lineKind line = .texCoord ∧ ∃ v, readVec2 ops (cstr line) = .ok v ∧
        st1 = { st with uvs := st.uvs ++ [v] }) ∨
      (lineKind line = .normal ∧ ∃ v, readVec3 ops (cstr line) = .ok v ∧
        st1 = { st with normals := st.normals ++ [v] }) ∨
      (lineKind line = .face ∧ ∃ r m, faceCorners ops st line = .ok r ∧
        emitFace st.m_indices r.2 = .ok m ∧
        st1 = { st with m_vertices := r.1, m_indices := m }) ∨
      (lineKind line = .other ∧ st1 = st) := by
  unfold processLine at h
  cases hk : lineKind line with
  | position =>
    simp only [hk] at h
    cases hv : readVec3 ops (cstr line) with
    | error e => simp [hv, bind, Except.bind] at h
    | ok v =>
      simp only [hv, bind, Except.bind, pure, Except.pure, Except.ok.injEq] at h
      exact Or.inl ⟨rfl, v, rfl, h.symm⟩
  | texCoord =>
    simp only [hk] at h
    cases hv : readVec2 ops (cstr line) with
    | error e => simp [hv, bind, Except.bind] at h
    | ok v =>
      simp only [hv, bind, Except.bind, pure, Except.pure, Except.ok.injEq] at h
      exact Or.inr (Or.inl ⟨rfl, v, rfl, h.symm⟩)
  | normal =>
    simp only [hk] at h
    cases hv : readVec3 ops (cstr line) with
    | error e => simp [hv, bind, Except.bind] at h
    | ok v =>
      simp only [hv, bind, Except.bind, pure, Except.pure, Except.ok.injEq] at h
      exact Or.inr (Or.inr (Or.inl ⟨rfl, v, rfl, h.symm⟩))
  | face =>
    simp only [hk] at h
    cases hr : faceCorners ops st line with
    | error e => simp [hr, bind, Except.bind] at h
    | ok r =>
      cases hm : emitFace st.m_indices r.2 with
      | error e => simp [hr, hm, bind, Except.bind] at h
      | ok m =>
        simp only [hr, hm, bind, Except.bind, pure, Except.pure, Except.ok.injEq] at h
        exact Or.inr (Or.inr (Or.inr (Or.inl ⟨rfl, r, m, rfl, hm, h.symm⟩)))
  | other =>
    simp only [hk, pure, Except.pure, Except.ok.injEq] at h
    exact Or.inr (Or.inr (Or.inr (Or.inr ⟨rfl, h.symm⟩)))

theorem processLine_valid {F : Type} (ops : FloatOps F) (st st1 : ParseState F)
    (line : List Char) (h : processLine ops st line = .ok st1) (hv : IndicesValid st) :
    IndicesValid st1 := by
  rcases processLine_ok ops st st1 line h with ⟨_, v, _, rfl⟩ | ⟨_, v, _, rfl⟩ |
    ⟨_, v, _, rfl⟩ | ⟨_, r, m, hr, hm, rfl⟩ | ⟨_, rfl⟩
  · exact hv
  · exact hv
  · exact hv
  · obtain ⟨hle, hfi⟩ := parseCorners_lt ops st _ _ _ _ r hr (by simp)
    intro i hi
    rcases emitFace_mem _ _ _ hm i hi with h1 | h1
    · exact lt_of_lt_of_le (hv i h1) hle
    · exact hfi i h1
  · exact hv

theorem parseLines_valid {F : Type} (ops : FloatOps F) (lines : List (List Char)) :
    ∀ (st st1 : ParseState F), parseLines ops st lines = .ok st1 → IndicesValid st →
      IndicesValid st1 := by
  induction lines with
  | nil =>
    intro st st1 h hv
    simp only [parseLines, Except.ok.injEq] at h
    exact h ▸ hv
  | cons line lines ih =>
    intro st st1 h hv
    unfold parseLines at h
    split at h
    · exact ih _ _ h (processLine_valid ops st _ line (by assumption) hv)
    · cases h

theorem parse_ok {F : Type} (ops : FloatOps F) (content : String) (m : MeshData F)
    (h : parse ops content = .ok m) :
    ∃ st, parseLines ops (ParseState.init F) (getlines content) = .ok st ∧
      m = ⟨st.m_vertices, st.m_indices⟩ := by
  unfold parse at h
  split at h
  · simp only [Except.ok.injEq] at h
    exact ⟨_, by assumption, h.symm⟩
  · cases h

/-! ### The run as a deduplication of its corners -/

theorem assign_append {F : Type} (ops : FloatOps F) (cs1 cs2 : List (Corner F)) :
    ∀ vs : List (Vertex3dUVNormal F),
      assign ops vs (cs1 ++ cs2) =
        ((assign ops (assign ops vs cs1).1 cs2).1,
          (assign ops vs cs1).2 ++ (assign ops (assign ops vs cs1).1 cs2).2) := by
  induction cs1 with
  | nil => intro vs; simp [assign]
  | cons c cs ih =>
    intro vs
    simp only [List.cons_append, assign]
    cases hf : firstIndex (c.sameAs ops) vs with
    | some i => simp [ih]
    | none => simp [ih]

theorem parseCorners_assign {F : Type} (ops : FloatOps F) (st : ParseState F) (n : Nat) :
    ∀ (rest : List Char) (mv : List (Vertex3dUVNormal F)) (fi : List Nat)
      (r : List (Vertex3dUVNormal F) × List Nat),
      parseCorners ops st n rest mv fi = .ok r →
      r.1 = (assign ops mv ((lineLog ops st n rest mv).map (fun e => e.corner))).1 ∧
      r.2 = fi ++ (lineLog ops st n rest mv).map (fun e => e.index) ∧
      (lineLog ops st n rest mv).map (fun e => e.index) =
        (assign ops mv ((lineLog ops st n rest mv).map (fun e => e.corner))).2 := by
  induction n with
  | zero => intro rest mv fi r h; simp [parseCorners] at h
  | succ n ih =>
    intro rest mv fi r h
    rcases parseCorners_succ_ok ops st n rest mv fi r h with
      ⟨hn, rfl⟩ | ⟨c, rest1, mv1, idx, hn, ha, hr⟩
    · simp [lineLog, hn, assign]
    · obtain ⟨h1, h2, h3⟩ := ih rest1 mv1 (fi ++ [idx]) r hr
      simp only [lineLog, hn, ha, List.map_cons, assign]
      rcases addVertex_ok ops mv mv1 c idx ha with ⟨hf, rfl⟩ | ⟨hf, rfl, rfl⟩
      · simp only [hf]
        refine ⟨h1, ?_, ?_⟩
        · rw [h2]; simp
        · rw [h3]
      · simp only [hf]
        refine ⟨h1, ?_, ?_⟩
        · rw [h2]; simp
        · rw [h3]

theorem processLine_assign {F : Type} (ops : FloatOps F) (st st1 : ParseState F)
    (line : List Char) (h : processLine ops st line = .ok st1) :
    st1.m_vertices = (assign ops st.m_vertices
      ((if lineKind line = .face then faceLog ops st line else []).map
        (fun e => e.corner))).1 ∧
    (if lineKind line = .face then faceLog ops st line else []).map (fun e => e.index) =
      (assign ops st.m_vertices
        ((if lineKind line = .face then faceLog ops st line else []).map
          (fun e => e.corner))).2 := by
  rcases processLine_ok ops st st1 line h with ⟨hk, v, _, rfl⟩ | ⟨hk, v, _, rfl⟩ |
    ⟨hk, v, _, rfl⟩ | ⟨hk, r, m, hr, hm, rfl⟩ | ⟨hk, rfl⟩
  · simp [hk, assign]
  · simp [hk, assign]
  · simp [hk, assign]
  · obtain ⟨h1, _, h3⟩ := parseCorners_assign ops st _ _ _ _ r hr
    simp only [hk, if_true]
    exact ⟨h1, h3⟩
  · simp [hk, assign]

/-- A run that reaches the end of the source has deduplicated its corners. -/
theorem parseLines_assign {F : Type} (ops : FloatOps F) (lines : List (List Char)) :
    ∀ (st st1 : ParseState F), parseLines ops st lines = .ok st1 →
      st1.m_vertices =
        (assign ops st.m_vertices ((cornerLog ops st lines).map (fun e => e.corner))).1 ∧
      (cornerLog ops st lines).map (fun e => e.index) =
        (assign ops st.m_vertices ((cornerLog ops st lines).map (fun e => e.corner))).2 := by
  induction lines with
  | nil =>
    intro st st1 h
    simp only [parseLines, Except.ok.injEq] at h
    subst h
    simp [cornerLog, assign]
  | cons line lines ih =>
    intro st st1 h
    unfold parseLines at h
    split at h
    · rename_i st2 hp
      obtain ⟨h1, h2⟩ := ih st2 st1 h
      obtain ⟨g1, g2⟩ := processLine_assign ops st st2 line hp
      simp only [cornerLog, hp, List.map_append, assign_append]
      rw [← g1, ← g2, ← h1, ← h2]
      exact ⟨rfl, rfl⟩
    · cases h

/-! ### Facts about `assign` -/

theorem same_trans {F : Type} (ops : FloatOps F) (ht : EqTransitive ops) (a b c : Corner F)
    (hab : a.same ops b = true) (hbc : b.same ops c = true) : a.same ops c = true := by
  simp only [Corner.same, Corner.sameAs, Corner.toVertex, Vec3.eq, Vec2.eq,
    Bool.and_eq_true] at hab hbc ⊢
  obtain ⟨⟨⟨⟨a1, a2⟩, a3⟩, a4, a5⟩, ⟨a6, a7⟩, a8⟩ := hab
  obtain ⟨⟨⟨⟨b1, b2⟩, b3⟩, b4, b5⟩, ⟨b6, b7⟩, b8⟩ := hbc
  exact ⟨⟨⟨⟨ht _ _ _ a1 b1, ht _ _ _ a2 b2⟩, ht _ _ _ a3 b3⟩, ht _ _ _ a4 b4,
    ht _ _ _ a5 b5⟩, ⟨ht _ _ _ a6 b6, ht _ _ _ a7 b7⟩, ht _ _ _ a8 b8⟩

theorem assign_cons_some {F : Type} (ops : FloatOps F) (vs : List (Vertex3dUVNormal F))
    (c : Corner F) (cs : List (Corner F)) (i : Nat)
    (h : firstIndex (c.sameAs ops) vs = some i) :
    assign ops vs (c :: cs) = ((assign ops vs cs).1, i :: (assign ops vs cs).2) := by
  simp [assign, h]

theorem assign_cons_none {F : Type} (ops : FloatOps F) (vs : List (Vertex3dUVNormal F))
    (c : Corner F) (cs : List (Corner F)) (h : firstIndex (c.sameAs ops) vs = none) :
    assign ops vs (c :: cs) =
      ((assign ops (vs ++ [c.toVertex ops]) cs).1,
        vs.length :: (assign ops (vs ++ [c.toVertex ops]) cs).2) := by
  simp [assign, h]

theorem assign_length {F : Type} (ops : FloatOps F) (cs : List (Corner F)) :
    ∀ vs : List (Vertex3dUVNormal F), (assign ops vs cs).2.length = cs.length := by
  induction cs with
  | nil => intro vs; simp [assign]
  | cons c cs ih =>
    intro vs
    cases hf : firstIndex (c.sameAs ops) vs with
    | some i => simp [assign_cons_some ops vs c cs i hf, ih]
    | none => simp [assign_cons_none ops vs c cs hf, ih]

/-- The vertex array only grows at its end. -/
theorem assign_extends {F : Type} (ops : FloatOps F) (cs : List (Corner F)) :
    ∀ vs : List (Vertex3dUVNormal F), ∃ ext, (assign ops vs cs).1 = vs ++ ext ∧
      ∀ v ∈ ext, ∃ c ∈ cs, v = c.toVertex ops := by
  induction cs with
  | nil => intro vs; exact ⟨[], by simp [assign]⟩
  | cons c cs ih =>
    intro vs
    cases hf : firstIndex (c.sameAs ops) vs with
    | some i =>
      obtain ⟨ext, h1, h2⟩ := ih vs
      refine ⟨ext, by simp [assign_cons_some ops vs c cs i hf, h1], ?_⟩
      intro v hv
      obtain ⟨d, hd, rfl⟩ := h2 v hv
      exact ⟨d, List.mem_cons_of_mem _ hd, rfl⟩
    | none =>
      obtain ⟨ext, h1, h2⟩ := ih (vs ++ [c.toVertex ops])
      refine ⟨c.toVertex ops :: ext, by simp [assign_cons_none ops vs c cs hf, h1], ?_⟩
      intro v hv
      rcases List.mem_cons.1 hv with rfl | hv
      · exact ⟨c, List.mem_cons_self _ _, rfl⟩
      · obtain ⟨d, hd, rfl⟩ := h2 v hv
        exact ⟨d, List.mem_cons_of_mem _ hd, rfl⟩

theorem get?_append_of_some {α : Type} (l ext : List α) (i : Nat) (a : α)
    (h : l.get? i = some a) : (l ++ ext).get? i = some a := by
  have hi : i < l.length := (List.get?_eq_some.1 h).1
  simp only [List.get?_eq_getElem?] at h ⊢
  rw [List.getElem?_append_left hi]
  exact h

theorem get?_middle {α : Type} (l1 l2 : List α) (a : α) (n : Nat) (hn : n = l1.length) :
    (l1 ++ a :: l2).get? n = some a := by
  subst hn
  induction l1 with
  | nil => rfl
  | cons x xs ih => simpa using ih

/-- The index given to the corner after the corners `pre`. -/
theorem assign_index {F : Type} (ops : FloatOps F) (vs : List (Vertex3dUVNormal F))
    (pre post : List (Corner F)) (c : Corner F) :
    (assign ops vs (pre ++ c :: post)).2.get? pre.length =
      some (match firstIndex (c.sameAs ops) (assign ops vs pre).1 with
        | some i => i
        | none => (assign ops vs pre).1.length) := by
  rw [assign_append]
  simp only [List.get?_eq_getElem?]
  rw [List.getElem?_append_right (by rw [assign_length])]
  rw [assign_length, Nat.sub_self]
  cases hf : firstIndex (c.sameAs ops) (assign ops vs pre).1 with
  | some i => simp [assign_cons_some ops _ c post i hf]
  | none => simp [assign_cons_none ops _ c post hf]

/-- The index given to a corner refers, in the final vertex array, to the vertex
built from the corner or to a vertex the corner compares equal to. -/
theorem assign_refers {F : Type} (ops : FloatOps F) (vs : List (Vertex3dUVNormal F))
    (pre post : List (Corner F)) (c : Corner F) :
    ∃ idx v, (assign ops vs (pre ++ c :: post)).2.get? pre.length = some idx ∧
      (assign ops vs (pre ++ c :: post)).1.get? idx = some v ∧
      (v = c.toVertex ops ∨ c.sameAs ops v = true) := by
  have hidx := assign_index ops vs pre post c
  have happ := assign_append ops pre (c :: post) vs
  cases hf : firstIndex (c.sameAs ops) (assign ops vs pre).1 with
  | some i =>
    rw [hf] at hidx
    obtain ⟨a, ha, hpa, _⟩ := firstIndex_some _ _ _ hf
    obtain ⟨ext, hext, _⟩ := assign_extends ops (c :: post) (assign ops vs pre).1
    refine ⟨i, a, hidx, ?_, Or.inr hpa⟩
    rw [happ]
    simp only
    rw [hext]
    exact get?_append_of_some _ _ _ _ ha
  | none =>
    rw [hf] at hidx
    obtain ⟨ext, hext, _⟩ :=
      assign_extends ops post ((assign ops vs pre).1 ++ [c.toVertex ops])
    refine ⟨_, c.toVertex ops, hidx, ?_, Or.inl rfl⟩
    rw [happ]
    simp only
    rw [assign_cons_none ops _ c post hf]
    simp only
    rw [hext]
    apply get?_append_of_some
    simp [List.get?_eq_getElem?]

theorem assign_distinct {F : Type} (ops : FloatOps F) (cs : List (Corner F)) :
    ∀ vs : List (Vertex3dUVNormal F), Distinct ops vs → Distinct ops (assign ops vs cs).1 := by
  induction cs with
  | nil => intro vs h; simpa [assign] using h
  | cons c cs ih =>
    intro vs h
    cases hf : firstIndex (c.sameAs ops) vs with
    | some i =>
      rw [assign_cons_some ops vs c cs i hf]
      exact ih vs h
    | none =>
      rw [assign_cons_none ops vs c cs hf]
      apply ih
      unfold Distinct
      rw [List.pairwise_append]
      refine ⟨h, List.pairwise_singleton _ _, ?_⟩
      intro a ha b hb
      simp only [List.mem_singleton] at hb
      subst hb
      exact firstIndex_none _ _ hf a ha

theorem firstIndex_append_hit {α : Type} (p : α → Bool) (l1 l2 : List α) (a : α)
    (h1 : ∀ x ∈ l1, p x = false) (ha : p a = true) :
    firstIndex p (l1 ++ a :: l2) = some l1.length := by
  induction l1 with
  | nil => simp [firstIndex, ha]
  | cons x xs ih =>
    have hx : p x = false := h1 x (List.mem_cons_self _ _)
    have := ih (fun y hy => h1 y (List.mem_cons_of_mem _ hy))
    rw [List.cons_append]
    unfold firstIndex
    rw [this]
    simp [hx]

theorem firstIndex_eq_none {α : Type} (p : α → Bool) (l : List α)
    (h : ∀ a ∈ l, p a = false) : firstIndex p l = none := by
  induction l with
  | nil => rfl
  | cons x xs ih =>
    simp only [firstIndex, h x (List.mem_cons_self _ _), Bool.false_eq_true, if_false]
    rw [ih (fun y hy => h y (List.mem_cons_of_mem _ hy))]
    rfl

/-- With a transitive comparison, the vertices added by `assign` are the first
occurrences among the corners. -/
theorem assign_keepFirstFrom {F : Type} (ops : FloatOps F) (ht : EqTransitive ops)
    (cs : List (Corner F)) :
    ∀ (vs : List (Vertex3dUVNormal F)) (seen : List (Corner F)),
      (∀ s ∈ seen, ∀ d : Corner F, d.same ops s = true → ∃ v ∈ vs, d.sameAs ops v = true) →
      (∀ v ∈ vs, ∃ s ∈ seen, v = s.toVertex ops) →
      (assign ops vs cs).1 = vs ++ (keepFirstFrom ops seen cs).map (fun c => c.toVertex ops) := by
  induction cs with
  | nil => intro vs seen _ _; simp [assign, keepFirstFrom]
  | cons c cs ih =>
    intro vs seen h1 h2
    cases hf : firstIndex (c.sameAs ops) vs with
    | some i =>
      obtain ⟨a, ha, hpa, _⟩ := firstIndex_some _ _ _ hf
      have hmem : a ∈ vs := List.get?_mem ha
      obtain ⟨s, hs, rfl⟩ := h2 a hmem
      have hany : seen.any (fun s => c.same ops s) = true :=
        List.any_eq_true.2 ⟨s, hs, hpa⟩
      rw [assign_cons_some ops vs c cs i hf]
      simp only [keepFirstFrom, hany, if_true]
      apply ih vs (seen ++ [c])
      · intro s1 hs1 d hd
        rcases List.mem_append.1 hs1 with hs1 | hs1
        · exact h1 s1 hs1 d hd
        · simp only [List.mem_singleton] at hs1
          subst hs1
          exact ⟨s.toVertex ops, hmem, same_trans ops ht d s1 s hd hpa⟩
      · intro v hv
        obtain ⟨s1, hs1, rfl⟩ := h2 v hv
        exact ⟨s1, List.mem_append_left _ hs1, rfl⟩
    | none =>
      have hnone := firstIndex_none _ _ hf
      have hany : seen.any (fun s => c.same ops s) = false := by
        rw [Bool.eq_false_iff]
        intro hcon
        obtain ⟨s, hs, hcs⟩ := List.any_eq_true.1 hcon
        obtain ⟨v, hv, hcv⟩ := h1 s hs c hcs
        rw [hnone v hv] at hcv
        cases hcv
      rw [assign_cons_none ops vs c cs hf]
      simp only [keepFirstFrom, hany, Bool.false_eq_true, if_false, List.map_cons]
      rw [ih (vs ++ [c.toVertex ops]) (seen ++ [c])]
      · simp
      · intro s1 hs1 d hd
        rcases List.mem_append.1 hs1 with hs1 | hs1
        · obtain ⟨v, hv, hdv⟩ := h1 s1 hs1 d hd
          exact ⟨v, List.mem_append_left _ hv, hdv⟩
        · simp only [List.mem_singleton] at hs1
          subst hs1
          exact ⟨s1.toVertex ops, by simp, hd⟩
      · intro v hv
        rcases List.mem_append.1 hv with hv | hv
        · obtain ⟨s1, hs1, rfl⟩ := h2 v hv
          exact ⟨s1, List.mem_append_left _ hs1, rfl⟩
        · simp only [List.mem_singleton] at hv
          exact ⟨c, by simp, hv⟩

theorem assign_keepFirst {F : Type} (ops : FloatOps F) (ht : EqTransitive ops)
    (cs : List (Corner F)) :
    (assign ops [] cs).1 = (keepFirst ops cs).map (fun c => c.toVertex ops) := by
  have := assign_keepFirstFrom ops ht cs [] [] (by simp) (by simp)
  simpa [keepFirst] using this

/-- A corner that compares equal to none of the corners before it gets the
length of the vertex array as its index. -/
theorem assign_index_new {F : Type} (ops : FloatOps F) (ht : EqTransitive ops)
    (pre post : List (Corner F)) (c : Corner F)
    (hnew : ∀ d ∈ pre, c.same ops d = false) :
    (assign ops [] (pre ++ c :: post)).2.get? pre.length =
      some (keepFirst ops pre).length := by
  rw [assign_index]
  obtain ⟨ext, hext, hfrom⟩ := assign_extends ops pre []
  have hnone : firstIndex (c.sameAs ops) (assign ops [] pre).1 = none := by
    apply firstIndex_eq_none
    intro a ha
    rw [hext] at ha
    obtain ⟨d, hd, rfl⟩ := hfrom a (by simpa using ha)
    exact hnew d hd
  rw [hnone]
  simp [assign_keepFirst ops ht pre]

/-- A corner that compares equal to an earlier corner gets the index of the first
such corner. -/
theorem assign_index_seen {F : Type} (ops : FloatOps F) (ht : EqTransitive ops)
    (pre1 pre2 post : List (Corner F)) (c d : Corner F)
    (hcd : c.same ops d = true) (hfirst : ∀ d1 ∈ pre1, c.same ops d1 = false) :
    (assign ops [] ((pre1 ++ d :: pre2) ++ c :: post)).2.get? (pre1 ++ d :: pre2).length =
      (assign ops [] ((pre1 ++ d :: pre2) ++ c :: post)).2.get? pre1.length := by
  have hdnew : ∀ d1 ∈ pre1, d.same ops d1 = false := by
    intro d1 hd1
    rw [Bool.eq_false_iff]
    intro hcon
    have := same_trans ops ht c d d1 hcd hcon
    rw [hfirst d1 hd1] at this
    cases this
  have hd : (assign ops [] ((pre1 ++ d :: pre2) ++ c :: post)).2.get? pre1.length =
      some (keepFirst ops pre1).length := by
    rw [List.append_assoc, List.cons_append]
    exact assign_index_new ops ht pre1 (pre2 ++ c :: post) d hdnew
  rw [hd, assign_index]
  obtain ⟨ext1, hext1, hfrom1⟩ := assign_extends ops pre1 []
  have hnone : firstIndex (d.sameAs ops) (assign ops [] pre1).1 = none := by
    apply firstIndex_eq_none
    intro a ha
    rw [hext1] at ha
    obtain ⟨d1, hd1, rfl⟩ := hfrom1 a (by simpa using ha)
    exact hdnew d1 hd1
  obtain ⟨ext, hext, _⟩ :=
    assign_extends ops pre2 ((assign ops [] pre1).1 ++ [d.toVertex ops])
  have hV : (assign ops [] (pre1 ++ d :: pre2)).1 =
      (assign ops [] pre1).1 ++ d.toVertex ops :: ext := by
    rw [assign_append]
    simp only
    rw [assign_cons_none ops _ d pre2 hnone]
    simp only
    rw [hext]
    simp
  rw [hV, firstIndex_append_hit (c.sameAs ops) _ ext (d.toVertex ops) _ hcd]
  · simp [assign_keepFirst ops ht pre1]
  · intro a ha
    rw [hext1] at ha
    obtain ⟨d1, hd1, rfl⟩ := hfrom1 a (by simpa using ha)
    exact hfirst d1 hd1

/-! ### Facts about the corner log -/

theorem stoiMinus1_ok (tok : Option (List Char)) (i : Int) (h : stoiMinus1 tok = .ok i) :
    ∃ token v, tok = some token ∧ stoi token = .ok v ∧ i = v - 1 := by
  cases tok with
  | none => simp [stoiMinus1] at h
  | some token =>
    simp only [stoiMinus1] at h
    cases hv : stoi token with
    | error e => simp [hv] at h
    | ok v =>
      simp only [hv] at h
      split at h
      · cases h
      · simp only [Except.ok.injEq] at h
        exact ⟨token, v, rfl, hv, h.symm⟩

theorem vecAt_ok {α : Type} (xs : List α) (i : Int) (a : α) (h : vecAt xs i = .ok a) :
    0 ≤ i ∧ xs.get? i.toNat = some a := by
  unfold vecAt at h
  split at h
  · split at h
    · simp only [Except.ok.injEq] at h
      subst h
      exact ⟨by assumption, by assumption⟩
    · cases h
  · cases h

theorem vecAt_record {α : Type} (xs : List α) (v : Int) (a : α)
    (h : vecAt xs (v - 1) = .ok a) : record xs v = some a := by
  obtain ⟨h0, h1⟩ := vecAt_ok xs (v - 1) a h
  unfold record
  rw [if_pos (by omega)]
  exact h1

/-- A round of the corner loop resolves the three attributes by the 1-based
indices of its corner token. -/
theorem nextCorner_resolves {F : Type} (st : ParseState F) (rest rest1 : List Char)
    (c : Corner F) (h : nextCorner st rest = .ok (some (c, rest1))) :
    ∃ p t n, cornerIndices rest = some (p, t, n) ∧ record st.vertices p = some c.vp ∧
      record st.uvs t = some c.vt ∧ record st.normals n = some c.vn := by
  unfold nextCorner at h
  split at h
  · cases h
  · rename_i token r1 hs1
    cases hi : stoiMinus1 (some token) with
    | error e => simp [hi, bind, Except.bind] at h
    | ok i =>
      cases hvp : vecAt st.vertices i with
      | error e => simp [hi, hvp, bind, Except.bind] at h
      | ok vp =>
        cases hj : stoiMinus1 (strtok '/' r1).1 with
        | error e => simp [hi, hvp, hj, bind, Except.bind] at h
        | ok j =>
          cases hvt : vecAt st.uvs j with
          | error e => simp [hi, hvp, hj, hvt, bind, Except.bind] at h
          | ok vt =>
            cases hk : stoiMinus1 (strtok ' ' (strtok '/' r1).2).1 with
            | error e => simp [hi, hvp, hj, hvt, hk, bind, Except.bind] at h
            | ok k =>
              cases hvn : vecAt st.normals k with
              | error e => simp [hi, hvp, hj, hvt, hk, hvn, bind, Except.bind] at h
              | ok vn =>
                simp only [hi, hvp, hj, hvt, hk, hvn, bind, Except.bind, pure, Except.pure,
                  Except.ok.injEq, Option.some.injEq, Prod.mk.injEq] at h
                obtain ⟨rfl, rfl⟩ := h
                obtain ⟨tp, p, htp, hp, rfl⟩ := stoiMinus1_ok _ _ hi
                obtain ⟨tt, t, htt, ht, rfl⟩ := stoiMinus1_ok _ _ hj
                obtain ⟨tn, n, htn, hn, rfl⟩ := stoiMinus1_ok _ _ hk
                simp only [Option.some.injEq] at htp
                subst htp
                refine ⟨p, t, n, ?_, vecAt_record _ _ _ hvp, vecAt_record _ _ _ hvt,
                  vecAt_record _ _ _ hvn⟩
                unfold cornerIndices
                simp only [hs1, htt, htn, hp, ht, hn]

theorem lineLog_mem {F : Type} (ops : FloatOps F) (st : ParseState F) (n : Nat) :
    ∀ (rest : List Char) (mv : List (Vertex3dUVNormal F)) (e : CornerEvent F),
      e ∈ lineLog ops st n rest mv →
      e.streams = st ∧ ∃ rest1, nextCorner st e.pos = .ok (some (e.corner, rest1)) := by
  induction n with
  | zero => intro rest mv e he; simp [lineLog] at he
  | succ n ih =>
    intro rest mv e he
    unfold lineLog at he
    split at he
    · rename_i c rest1 hn
      split at he
      · rcases List.mem_cons.1 he with rfl | he
        · exact ⟨rfl, rest1, hn⟩
        · exact ih _ _ e he
      · simp at he
    · simp at he

/-- Every logged round belongs to a face line of the source, and its streams are
the state the run has reached before that line. -/
theorem cornerLog_mem {F : Type} (ops : FloatOps F) (lines : List (List Char)) :
    ∀ (st : ParseState F) (e : CornerEvent F), e ∈ cornerLog ops st lines →
      ∃ pre line post, lines = pre ++ line :: post ∧ lineKind line = .face ∧
        parseLines ops st pre = .ok e.streams ∧ e ∈ faceLog ops e.streams line := by
  induction lines with
  | nil => intro st e he; simp [cornerLog] at he
  | cons line lines ih =>
    intro st e he
    unfold cornerLog at he
    split at he
    · rename_i st1 hp
      rcases List.mem_append.1 he with he | he
      · by_cases hk : lineKind line = .face
        · rw [if_pos hk] at he
          have hst : e.streams = st := (lineLog_mem ops st _ _ _ e he).1
          exact ⟨[], line, lines, rfl, hk, by rw [hst]; rfl, by rw [hst]; exact he⟩
        · rw [if_neg hk] at he
          simp at he
      · obtain ⟨pre, l, post, hl, hk, hrun, hmem⟩ := ih st1 e he
        refine ⟨line :: pre, l, post, by rw [hl]; rfl, hk, ?_, hmem⟩
        simp only [parseLines, hp]
        exact hrun
    · simp at he

/-- The face indices at the end of the corner loop are the indices of its rounds. -/
theorem faceCorners_faceLog {F : Type} (ops : FloatOps F) (st : ParseState F)
    (line : List Char) (r : List (Vertex3dUVNormal F) × List Nat)
    (h : faceCorners ops st line = .ok r) :
    r.2 = (faceLog ops st line).map (fun e => e.index) := by
  have := (parseCorners_assign ops st _ _ _ _ r h).2.1
  simpa [faceLog] using this

/-! ### The step budget of the corner loop suffices -/

theorem strtok_snd_le (d : Char) (s : List Char) : (strtok d s).2.length ≤ s.length := by
  unfold strtok
  split
  · simp
  · rename_i c cs hs
    have h1 : (c :: cs).length ≤ s.length := by
      rw [← hs]
      exact (List.dropWhile_sublist _).length_le
    have h2 := (List.dropWhile_sublist (fun d1 => d1 != d) (l := c :: cs)).length_le
    simp only [List.length_drop]
    omega

theorem strtok_snd_lt (d : Char) (s tok : List Char) (h : (strtok d s).1 = some tok) :
    (strtok d s).2.length < s.length := by
  unfold strtok at h ⊢
  split
  · rename_i hs
    rw [hs] at h
    cases h
  · rename_i c cs hs
    have h1 : (c :: cs).length ≤ s.length := by
      rw [← hs]
      exact (List.dropWhile_sublist _).length_le
    have h2 := (List.dropWhile_sublist (fun d1 => d1 != d) (l := c :: cs)).length_le
    simp only [List.length_drop]
    simp only [List.length_cons] at h1 h2 ⊢
    by_cases h0 : (List.dropWhile (fun d1 => d1 != d) (c :: cs)).length = 0
    · omega
    · omega

theorem nextCorner_rest_lt {F : Type} (st : ParseState F) (rest rest1 : List Char)
    (c : Corner F) (h : nextCorner st rest = .ok (some (c, rest1))) :
    rest1.length < rest.length := by
  unfold nextCorner at h
  split at h
  · cases h
  · rename_i token r1 hs1
    cases hi : stoiMinus1 (some token) with
    | error e => simp [hi, bind, Except.bind] at h
    | ok i =>
      cases hvp : vecAt st.vertices i with
      | error e => simp [hi, hvp, bind, Except.bind] at h
      | ok vp =>
        cases hj : stoiMinus1 (strtok '/' r1).1 with
        | error e => simp [hi, hvp, hj, bind, Except.bind] at h
        | ok j =>
          cases hvt : vecAt st.uvs j with
          | error e => simp [hi, hvp, hj, hvt, bind, Except.bind] at h
          | ok vt =>
            cases hk : stoiMinus1 (strtok ' ' (strtok '/' r1).2).1 with
            | error e => simp [hi, hvp, hj, hvt, hk, bind, Except.bind] at h
            | ok k =>
              cases hvn : vecAt st.normals k with
              | error e => simp [hi, hvp, hj, hvt, hk, hvn, bind, Except.bind] at h
              | ok vn =>
                simp only [hi, hvp, hj, hvt, hk, hvn, bind, Except.bind, pure, Except.pure,
                  Except.ok.injEq, Option.some.injEq, Prod.mk.injEq] at h
                obtain ⟨_, rfl⟩ := h
                have a1 : (strtok '/' rest).2.length < rest.length :=
                  strtok_snd_lt '/' rest token (by rw [hs1])
                have a2 := strtok_snd_le '/' r1
                have a3 := strtok_snd_le ' ' (strtok '/' r1).2
                rw [hs1] at a1
                simp only at a1
                omega

theorem stoi_ne_budget (token : List Char) : stoi token ≠ .error .budget := by
  unfold stoi
  simp only
  split
  · simp
  · split
    · split <;> simp
    · split <;> simp

theorem stoiMinus1_ne_budget (tok : Option (List Char)) : stoiMinus1 tok ≠ .error .budget := by
  cases tok with
  | none => simp [stoiMinus1]
  | some token =>
    simp only [stoiMinus1]
    cases hv : stoi token with
    | error e =>
      have := stoi_ne_budget token
      rw [hv] at this
      simpa using this
    | ok v =>
      simp only
      split <;> simp

theorem vecAt_ne_budget {α : Type} (xs : List α) (i : Int) : vecAt xs i ≠ .error .budget := by
  unfold vecAt
  split
  · split <;> simp
  · simp

theorem nextCorner_ne_budget {F : Type} (st : ParseState F) (rest : List Char) :
    nextCorner st rest ≠ .error .budget := by
  unfold nextCorner
  split
  · simp
  · rename_i token r1 hs1
    cases hi : stoiMinus1 (some token) with
    | error e =>
      have := stoiMinus1_ne_budget (some token)
      rw [hi] at this
      simpa [bind, Except.bind] using this
    | ok i =>
      cases hvp : vecAt st.vertices i with
      | error e =>
        have := vecAt_ne_budget st.vertices i
        rw [hvp] at this
        simpa [bind, Except.bind, hi, hvp] using this
      | ok vp =>
        cases hj : stoiMinus1 (strtok '/' r1).1 with
        | error e =>
          have := stoiMinus1_ne_budget (strtok '/' r1).1
          rw [hj] at this
          simpa [bind, Except.bind, hi, hvp, hj] using this
        | ok j =>
          cases hvt : vecAt st.uvs j with
          | error e =>
            have := vecAt_ne_budget st.uvs j
            rw [hvt] at this
            simpa [bind, Except.bind, hi, hvp, hj, hvt] using this
          | ok vt =>
            cases hk : stoiMinus1 (strtok ' ' (strtok '/' r1).2).1 with
            | error e =>
              have := stoiMinus1_ne_budget (strtok ' ' (strtok '/' r1).2).1
              rw [hk] at this
              simpa [bind, Except.bind, hi, hvp, hj, hvt, hk] using this
            | ok k =>
              cases hvn : vecAt st.normals k with
              | error e =>
                have := vecAt_ne_budget st.normals k
                rw [hvn] at this
                simpa [bind, Except.bind, hi, hvp, hj, hvt, hk, hvn] using this
              | ok vn => simp [bind, Except.bind, hi, hvp, hj, hvt, hk, hvn, pure, Except.pure]

theorem addVertex_ne_budget {F : Type} (ops : FloatOps F) (mv : List (Vertex3dUVNormal F))
    (c : Corner F) : addVertex ops mv c ≠ .error .budget := by
  unfold addVertex
  split
  · split <;> simp
  · split <;> simp

/-- With more rounds allowed than `rest` has characters, the loop of
`parseCorners` ends by itself: the budget is never what stops it. -/
theorem parseCorners_budget {F : Type} (ops : FloatOps F) (st : ParseState F) (n : Nat) :
    ∀ (rest : List Char) (mv : List (Vertex3dUVNormal F)) (fi : List Nat),
      rest.length < n → parseCorners ops st n rest mv fi ≠ .error .budget := by
  induction n with
  | zero => intro rest mv fi h; omega
  | succ n ih =>
    intro rest mv fi hlen
    unfold parseCorners
    split
    · rename_i e he
      intro hcon
      simp only [Except.error.injEq] at hcon
      subst hcon
      exact nextCorner_ne_budget st rest he
    · simp
    · rename_i c rest1 hn
      split
      · rename_i e he
        intro hcon
        simp only [Except.error.injEq] at hcon
        subst hcon
        exact addVertex_ne_budget ops mv c he
      · have := nextCorner_rest_lt st rest rest1 c hn
        exact ih _ _ _ (by omega)

/-- The corner loop of a face line is never stopped by its budget. -/
theorem faceCorners_budget {F : Type} (ops : FloatOps F) (st : ParseState F)
    (line : List Char) : faceCorners ops st line ≠ .error .budget := by
  unfold faceCorners
  apply parseCorners_budget
  have := strtok_snd_le ' ' (cstr line)
  omega

/-! ## The claims -/

theorem parse_sampleSource : parse wholeOps sampleSource = .ok sampleMesh := by decide

/-- C1: whenever the parser runs to the end of the source (every face corner's
indices lie within the streams read so far, every face line has at least three
corners, every number is readable), every value of the index array it produced is
strictly less than the length of the vertex array it produced. -/
theorem parse_indices_lt {F : Type} (ops : FloatOps F) (content : String) (m : MeshData F)
    (h : parse ops content = .ok m) : ∀ i ∈ m.m_indices, i < m.m_vertices.length := by
  obtain ⟨st, hst, rfl⟩ := parse_ok ops content m h
  exact parseLines_valid ops _ _ st hst (by intro i hi; simp [ParseState.init] at hi)

theorem parse_indices_lt_witness :
    parse wholeOps sampleSource = .ok sampleMesh ∧
      ∀ i ∈ sampleMesh.m_indices, i < sampleMesh.m_vertices.length :=
  ⟨parse_sampleSource, parse_indices_lt wholeOps sampleSource sampleMesh parse_sampleSource⟩

/-- C2: in a run that reaches the end of the source, every round of the corner
loop belongs to a face line; the corner token `p/t/n` it reads resolves to the
`p`-th position record, the `t`-th texture-coordinate record and the `n`-th normal
record of the streams read before that face (1-based, looked up at the index
minus 1); and the index it records refers, in the final vertex array, to the
vertex built from exactly these three records or to a vertex whose position,
texture coordinate and normal compare equal to them. -/
theorem parse_corner_resolved {F : Type} (ops : FloatOps F) (content : String)
    (m : MeshData F) (h : parse ops content = .ok m) :
    ∀ e ∈ cornerLog ops (ParseState.init F) (getlines content),
      (∃ pre line post, getlines content = pre ++ line :: post ∧ lineKind line = .face ∧
        parseLines ops (ParseState.init F) pre = .ok e.streams ∧
        e ∈ faceLog ops e.streams line) ∧
      (∃ p t n, cornerIndices e.pos = some (p, t, n) ∧
        record e.streams.vertices p = some e.corner.vp ∧
        record e.streams.uvs t = some e.corner.vt ∧
        record e.streams.normals n = some e.corner.vn) ∧
      ∃ v, m.m_vertices.get? e.index = some v ∧
        (v = e.corner.toVertex ops ∨ e.corner.sameAs ops v = true) := by
  obtain ⟨st, hst, rfl⟩ := parse_ok ops content m h
  intro e he
  obtain ⟨pre, line, post, hl, hk, hrun, hmem⟩ := cornerLog_mem ops _ _ e he
  refine ⟨⟨pre, line, post, hl, hk, hrun, hmem⟩, ?_, ?_⟩
  · obtain ⟨_, rest1, hn⟩ := lineLog_mem ops e.streams _ _ _ e hmem
    exact nextCorner_resolves e.streams e.pos rest1 e.corner hn
  · obtain ⟨h1, h2⟩ := parseLines_assign ops _ _ st hst
    obtain ⟨l1, l2, hsplit⟩ := List.append_of_mem he
    have hcs : (cornerLog ops (ParseState.init F) (getlines content)).map (fun e => e.corner) =
        l1.map (fun e => e.corner) ++ e.corner :: l2.map (fun e => e.corner) := by
      rw [hsplit]; simp
    obtain ⟨idx, v, hidx, hv, hor⟩ := assign_refers ops (ParseState.init F).m_vertices
      (l1.map (fun e => e.corner)) (l2.map (fun e => e.corner)) e.corner
    rw [← hcs, ← h2] at hidx
    rw [← hcs, ← h1] at hv
    have hidx2 : idx = e.index := by
      rw [hsplit, List.map_append, List.map_cons, List.length_map,
        get?_middle _ _ _ _ (by simp)] at hidx
      exact (Option.some.inj hidx).symm
    subst hidx2
    exact ⟨v, hv, hor⟩

theorem parse_corner_resolved_witness :
    parse wholeOps sampleSource = .ok sampleMesh ∧
      ∀ e ∈ cornerLog wholeOps (ParseState.init Int) (getlines sampleSource),
        (∃ pre line post, getlines sampleSource = pre ++ line :: post ∧
          lineKind line = .face ∧
          parseLines wholeOps (ParseState.init Int) pre = .ok e.streams ∧
          e ∈ faceLog wholeOps e.streams line) ∧
        (∃ p t n, cornerIndices e.pos = some (p, t, n) ∧
          record e.streams.vertices p = some e.corner.vp ∧
          record e.streams.uvs t = some e.corner.vt ∧
          record e.streams.normals n = some e.corner.vn) ∧
        ∃ v, sampleMesh.m_vertices.get? e.index = some v ∧
          (v = e.corner.toVertex wholeOps ∨ e.corner.sameAs wholeOps v = true) :=
  ⟨parse_sampleSource,
    parse_corner_resolved wholeOps sampleSource sampleMesh parse_sampleSource⟩

/-- C3: the vertex array of a run that reaches the end of the source holds no two
entries that compare equal in position, texture coordinate and normal: of any two
entries at different places, the later one does not compare equal to the earlier
one (the test of lines 166 to 168, with the later one as the corner). -/
theorem parse_vertices_distinct {F : Type} (ops : FloatOps F) (content : String)
    (m : MeshData F) (h : parse ops content = .ok m) :
    m.m_vertices.Pairwise (fun earlier later => later.corner.sameAs ops earlier = false) := by
  obtain ⟨st, hst, rfl⟩ := parse_ok ops content m h
  obtain ⟨h1, _⟩ := parseLines_assign ops _ _ st hst
  simp only
  rw [h1]
  exact assign_distinct ops _ _ List.Pairwise.nil

theorem parse_vertices_distinct_witness :
    parse wholeOps sampleSource = .ok sampleMesh ∧
      sampleMesh.m_vertices.Pairwise
        (fun earlier later => later.corner.sameAs wholeOps earlier = false) :=
  ⟨parse_sampleSource,
    parse_vertices_distinct wholeOps sampleSource sampleMesh parse_sampleSource⟩

theorem wholeOps_transitive : EqTransitive wholeOps := by
  intro a b c hab hbc
  simp only [wholeOps, decide_eq_true_eq] at hab hbc ⊢
  omega

/-- C4: with a transitive `==`, the vertex array of a run that reaches the end of
the source is the list of the resolved corners of all faces in file order, with
every corner that compares equal to an earlier one removed, each as a vertex with
a zero tangent. A corner that compares equal to no earlier corner is given the
length the vertex array has before it is appended; a corner that compares equal
to an earlier corner is given the index of the first such corner. -/
theorem parse_deduplicates {F : Type} (ops : FloatOps F) (ht : EqTransitive ops)
    (content : String) (m : MeshData F) (h : parse ops content = .ok m) :
    m.m_vertices =
      (keepFirst ops ((cornerLog ops (ParseState.init F) (getlines content)).map
        (fun e => e.corner))).map (fun c => c.toVertex ops) ∧
    ∀ pre e post, cornerLog ops (ParseState.init F) (getlines content) = pre ++ e :: post →
      ((∀ d ∈ pre, e.corner.same ops d.corner = false) →
        e.index = (keepFirst ops (pre.map (fun e => e.corner))).length) ∧
      ∀ pre1 d pre2, pre = pre1 ++ d :: pre2 → e.corner.same ops d.corner = true →
        (∀ d1 ∈ pre1, e.corner.same ops d1.corner = false) → e.index = d.index := by
  obtain ⟨st, hst, rfl⟩ := parse_ok ops content m h
  obtain ⟨h1, h2⟩ := parseLines_assign ops _ _ st hst
  refine ⟨?_, ?_⟩
  · simp only
    rw [h1]
    exact assign_keepFirst ops ht _
  · intro pre e post hsplit
    have hget : ∀ (a : List (CornerEvent F)) (x : CornerEvent F) (b : List (CornerEvent F)),
        cornerLog ops (ParseState.init F) (getlines content) = a ++ x :: b →
        (assign ops [] (a.map (fun e => e.corner) ++ x.corner :: b.map (fun e => e.corner))).2.get?
          a.length = some x.index := by
      intro a x b hab
      have h3 := h2
      rw [hab] at h3
      simp only [List.map_append, List.map_cons] at h3
      have h4 : (assign ops [] (a.map (fun e => e.corner) ++ x.corner ::
          b.map (fun e => e.corner))).2 =
          a.map (fun e => e.index) ++ x.index :: b.map (fun e => e.index) := h3.symm
      rw [h4]
      exact get?_middle _ _ _ _ (by simp)
    refine ⟨?_, ?_⟩
    · intro hnew
      have := assign_index_new ops ht (pre.map (fun e => e.corner))
        (post.map (fun e => e.corner)) e.corner (by
          intro d hd
          obtain ⟨d0, hd0, rfl⟩ := List.mem_map.1 hd
          exact hnew d0 hd0)
      rw [List.length_map, hget pre e post hsplit] at this
      exact Option.some.inj this
    · intro pre1 d pre2 hpre hsame hfirst
      have := assign_index_seen ops ht (pre1.map (fun e => e.corner))
        (pre2.map (fun e => e.corner)) (post.map (fun e => e.corner)) e.corner d.corner hsame (by
          intro d1 hd1
          obtain ⟨d0, hd0, rfl⟩ := List.mem_map.1 hd1
          exact hfirst d0 hd0)
      have e1 : pre1.map (fun e => e.corner) ++ d.corner :: pre2.map (fun e => e.corner) =
          pre.map (fun e => e.corner) := by rw [hpre]; simp
      rw [e1] at this
      simp only [List.length_map] at this
      rw [hget pre e post hsplit] at this
      have hsplit2 : cornerLog ops (ParseState.init F) (getlines content) =
          pre1 ++ d :: (pre2 ++ e :: post) := by rw [hsplit, hpre]; simp
      have e2 : pre.map (fun e => e.corner) ++ e.corner :: post.map (fun e => e.corner) =
          pre1.map (fun e => e.corner) ++ d.corner ::
            (pre2 ++ e :: post).map (fun e => e.corner) := by rw [hpre]; simp
      have hd := hget pre1 d (pre2 ++ e :: post) hsplit2
      rw [← e2, ← this] at hd
      exact Option.some.inj hd

theorem parse_deduplicates_witness :
    EqTransitive wholeOps ∧ parse wholeOps sampleSource = .ok sampleMesh ∧
      sampleMesh.m_vertices =
        (keepFirst wholeOps ((cornerLog wholeOps (ParseState.init Int)
          (getlines sampleSource)).map (fun e => e.corner))).map
            (fun c => c.toVertex wholeOps) :=
  ⟨wholeOps_transitive, parse_sampleSource,
    (parse_deduplicates wholeOps wholeOps_transitive sampleSource sampleMesh
      parse_sampleSource).1⟩

/-- C5: on a face line whose corners resolve to the three vertex indices
`c0, c1, c2`, the parser appends exactly `c0, c1, c2` to the index array; on a
face line whose corners resolve to the four vertex indices `c0, c1, c2, c3`, it
appends exactly `c0, c1, c2, c0, c2, c3`, in that order. -/
theorem face_triangles {F : Type} (ops : FloatOps F) (st : ParseState F) (line : List Char)
    (mv : List (Vertex3dUVNormal F)) (hk : lineKind line = .face) :
    (∀ c0 c1 c2, faceCorners ops st line = .ok (mv, [c0, c1, c2]) →
      processLine ops st line =
        .ok { st with m_vertices := mv, m_indices := st.m_indices ++ [c0, c1, c2] }) ∧
    (∀ c0 c1 c2 c3, faceCorners ops st line = .ok (mv, [c0, c1, c2, c3]) →
      processLine ops st line =
        .ok { st with m_vertices := mv,
                      m_indices := st.m_indices ++ [c0, c1, c2, c0, c2, c3] }) := by
  constructor
  · intro c0 c1 c2 hr
    simp [processLine, hk, hr, emitFace, faceAt, bind, Except.bind, pure, Except.pure]
  · intro c0 c1 c2 c3 hr
    simp [processLine, hk, hr, emitFace, faceAt, bind, Except.bind, pure, Except.pure]

theorem face_triangles_witness :
    processLine wholeOps sampleStreams "f 1/1/1 2/2/1 3/1/1".toList =
      .ok { sampleStreams with m_vertices := (sampleMesh.m_vertices.take 3),
                               m_indices := [] ++ [0, 1, 2] } ∧
    processLine wholeOps sampleStreams "f 2/2/1 4/1/1 3/1/1 1/1/1".toList =
      .ok { sampleStreams with
              m_vertices := [⟨⟨1, 0, 0⟩, ⟨1, 0⟩, ⟨0, 0, 1⟩, ⟨0, 0, 0⟩⟩,
                ⟨⟨1, 1, 0⟩, ⟨0, 0⟩, ⟨0, 0, 1⟩, ⟨0, 0, 0⟩⟩,
                ⟨⟨0, 1, 0⟩, ⟨0, 0⟩, ⟨0, 0, 1⟩, ⟨0, 0, 0⟩⟩,
                ⟨⟨0, 0, 0⟩, ⟨0, 0⟩, ⟨0, 0, 1⟩, ⟨0, 0, 0⟩⟩],
              m_indices := [] ++ [0, 1, 2, 0, 2, 3] } :=
  ⟨(face_triangles wholeOps sampleStreams "f 1/1/1 2/2/1 3/1/1".toList _ (by decide)).1
      0 1 2 (by decide),
    (face_triangles wholeOps sampleStreams "f 2/2/1 4/1/1 3/1/1 1/1/1".toList _
      (by decide)).2 0 1 2 3 (by decide)⟩

/-- C9, as stated, fails: with three positions, a face line that refers to
position 999, or to position 0, does not end the run in a reported error; the run
reads outside the position stream. -/
theorem parse_out_of_range_reads :
    parse wholeOps "v 0 0 0\nv 1 0 0\nv 0 1 0\nvt 0 0\nvn 0 0 1\nf 999/1/1 2/1/1 3/1/1\n" =
        (.error .outOfBoundsRead : Except Fault (MeshData Int)) ∧
      parse wholeOps "v 0 0 0\nv 1 0 0\nv 0 1 0\nvt 0 0\nvn 0 0 1\nf 1/1/1 2/1/1 0/1/1\n" =
        (.error .outOfBoundsRead : Except Fault (MeshData Int)) := by
  decide

theorem vecAt_of_record_none {α : Type} (xs : List α) (v : Int) (h : record xs v = none) :
    vecAt xs (v - 1) = .error .outOfBoundsRead := by
  unfold record at h
  unfold vecAt
  by_cases h1 : 1 ≤ v
  · rw [if_pos h1] at h
    rw [if_pos (by omega), h]
  · rw [if_neg (by omega)]

theorem vecAt_of_record_some {α : Type} (xs : List α) (v : Int) (a : α)
    (h : record xs v = some a) : vecAt xs (v - 1) = .ok a := by
  unfold record at h
  unfold vecAt
  by_cases h1 : 1 ≤ v
  · rw [if_pos h1] at h
    rw [if_pos (by omega), h]
  · rw [if_neg h1] at h
    cases h

theorem stoiMinus1_of_stoi (token : List Char) (v : Int) (h : stoi token = .ok v) :
    stoiMinus1 (some token) =
      if v = -2147483648 then .error .signedOverflow else .ok (v - 1) := by
  simp [stoiMinus1, h]

theorem cornerIndices_some (rest : List Char) (p t n : Int)
    (h : cornerIndices rest = some (p, t, n)) :
    ∃ tp tt tn, (strtok '/' rest).1 = some tp ∧ stoi tp = .ok p ∧
      (strtok '/' (strtok '/' rest).2).1 = some tt ∧ stoi tt = .ok t ∧
      (strtok ' ' (strtok '/' (strtok '/' rest).2).2).1 = some tn ∧ stoi tn = .ok n := by
  unfold cornerIndices at h
  simp only at h
  split at h
  · rename_i a b c ha hb hc
    split at h
    · rename_i p1 t1 n1 hp ht hn
      simp only [Option.some.injEq, Prod.mk.injEq] at h
      obtain ⟨rfl, rfl, rfl⟩ := h
      exact ⟨a, b, c, ha, hp, hb, ht, hc, hn⟩
    · cases h
  · cases h

/-- C9, amended: the parser checks no range and reports no error of its own. A
round of the corner loop whose corner token names a position, texture-coordinate
or normal index outside the stream read so far (such as 999 with three positions,
or 0) ends the run at the unchecked read outside that stream, or, for the index
`-2147483648`, at the overflow of `std::stoi(token) - 1`. -/
theorem parseCorners_out_of_range {F : Type} (ops : FloatOps F) (st : ParseState F)
    (budget : Nat) (rest : List Char) (mv : List (Vertex3dUVNormal F)) (fi : List Nat)
    (p t n : Int) (hidx : cornerIndices rest = some (p, t, n))
    (hout : record st.vertices p = none ∨ record st.uvs t = none ∨
      record st.normals n = none) :
    parseCorners ops st (budget + 1) rest mv fi = .error .outOfBoundsRead ∨
      parseCorners ops st (budget + 1) rest mv fi = .error .signedOverflow := by
  obtain ⟨tp, tt, tn, h1, hp, h2, ht, h3, hn⟩ := cornerIndices_some rest p t n hidx
  have hnc : nextCorner st rest = .error .outOfBoundsRead ∨
      nextCorner st rest = .error .signedOverflow := by
    unfold nextCorner
    have hs : strtok '/' rest = (some tp, (strtok '/' rest).2) := by
      rw [← h1]
    rw [hs]
    simp only [h2, h3, stoiMinus1_of_stoi _ _ hp, stoiMinus1_of_stoi _ _ ht,
      stoiMinus1_of_stoi _ _ hn]
    by_cases hp0 : p = -2147483648
    · simp [hp0, bind, Except.bind]
    · cases hvp : record st.vertices p with
      | none => simp [hp0, vecAt_of_record_none _ _ hvp, bind, Except.bind]
      | some vp =>
        by_cases ht0 : t = -2147483648
        · simp [hp0, ht0, vecAt_of_record_some _ _ _ hvp, bind, Except.bind]
        · cases hvt : record st.uvs t with
          | none =>
            simp [hp0, ht0, vecAt_of_record_some _ _ _ hvp, vecAt_of_record_none _ _ hvt,
              bind, Except.bind]
          | some vt =>
            by_cases hn0 : n = -2147483648
            · simp [hp0, ht0, hn0, vecAt_of_record_some _ _ _ hvp,
                vecAt_of_record_some _ _ _ hvt, bind, Except.bind]
            · cases hvn : record st.normals n with
              | none =>
                simp [hp0, ht0, hn0, vecAt_of_record_some _ _ _ hvp,
                  vecAt_of_record_some _ _ _ hvt, vecAt_of_record_none _ _ hvn,
                  bind, Except.bind]
              | some vn =>
                rw [hvp, hvt, hvn] at hout
                simp at hout
  unfold parseCorners
  rcases hnc with h | h
  · rw [h]; exact Or.inl rfl
  · rw [h]; exact Or.inr rfl

theorem parseCorners_out_of_range_witness :
    parseCorners wholeOps sampleStreams (18 + 1) "999/1/1 2/1/1 3/1/1".toList [] [] =
        .error .outOfBoundsRead ∨
      parseCorners wholeOps sampleStreams (18 + 1) "999/1/1 2/1/1 3/1/1".toList [] [] =
        .error .signedOverflow :=
  parseCorners_out_of_range wholeOps sampleStreams 18 "999/1/1 2/1/1 3/1/1".toList [] []
    999 1 1 (by decide) (Or.inl (by decide))

/-- C10, as stated, fails: a face line with five corners is not rejected. The run
ends normally, with a vertex for each of the five corners and the one triangle of
the first three. -/
theorem parse_five_corners_accepted :
    parse wholeOps
      "v 0 0 0\nv 1 0 0\nv 2 1 0\nv 1 2 0\nv 0 1 0\nvt 0 0\nvn 0 0 1\nf 1/1/1 2/1/1 3/1/1 4/1/1 5/1/1\n" =
      .ok ⟨[⟨⟨0, 0, 0⟩, ⟨0, 0⟩, ⟨0, 0, 1⟩, ⟨0, 0, 0⟩⟩, ⟨⟨1, 0, 0⟩, ⟨0, 0⟩, ⟨0, 0, 1⟩, ⟨0, 0, 0⟩⟩,
        ⟨⟨2, 1, 0⟩, ⟨0, 0⟩, ⟨0, 0, 1⟩, ⟨0, 0, 0⟩⟩, ⟨⟨1, 2, 0⟩, ⟨0, 0⟩, ⟨0, 0, 1⟩, ⟨0, 0, 0⟩⟩,
        ⟨⟨0, 1, 0⟩, ⟨0, 0⟩, ⟨0, 0, 1⟩, ⟨0, 0, 0⟩⟩], [0, 1, 2]⟩ := by
  decide

/-- C10, amended: the parser checks no corner count. On a face line with more
than four corners all corners are resolved and deduplicated into the vertex array
and exactly the triangle of the first three corners is appended to the index
array; on a face line with fewer than three corners no error is reported either:
the run ends at the unchecked read of the first three face indices. -/
theorem face_arity_unchecked {F : Type} (ops : FloatOps F) (st : ParseState F)
    (line : List Char) (r : List (Vertex3dUVNormal F) × List Nat)
    (hk : lineKind line = .face) (hr : faceCorners ops st line = .ok r) :
    (4 < r.2.length → ∃ c0 c1 c2, r.2.take 3 = [c0, c1, c2] ∧
      processLine ops st line =
        .ok { st with m_vertices := r.1, m_indices := st.m_indices ++ [c0, c1, c2] }) ∧
    (r.2.length < 3 → processLine ops st line = .error .outOfBoundsRead) := by
  obtain ⟨mv, fi⟩ := r
  constructor
  · intro hlen
    match fi, hlen with
    | c0 :: c1 :: c2 :: c3 :: c4 :: tl, _ =>
      refine ⟨c0, c1, c2, rfl, ?_⟩
      simp [processLine, hk, hr, emitFace, faceAt, bind, Except.bind, pure, Except.pure]
  · intro hlen
    match fi, hlen with
    | [], _ => simp [processLine, hk, hr, emitFace, faceAt, bind, Except.bind]
    | [c0], _ => simp [processLine, hk, hr, emitFace, faceAt, bind, Except.bind]
    | [c0, c1], _ => simp [processLine, hk, hr, emitFace, faceAt, bind, Except.bind]

theorem face_arity_unchecked_witness :
    processLine wholeOps sampleStreams "f 1/1/1 2/2/1".toList = .error .outOfBoundsRead :=
  (face_arity_unchecked wholeOps sampleStreams "f 1/1/1 2/2/1".toList
    ([⟨⟨0, 0, 0⟩, ⟨0, 0⟩, ⟨0, 0, 1⟩, ⟨0, 0, 0⟩⟩, ⟨⟨1, 0, 0⟩, ⟨1, 0⟩, ⟨0, 0, 1⟩, ⟨0, 0, 0⟩⟩], [0, 1])
    (by decide) (by decide)).2 (by decide)

/-! ### The tangent pass -/

theorem specTangent_eq {F : Type} (ops : FloatOps F) (hc : MulCommutative ops)
    (v0 v1 v2 : Vertex3dUVNormal F) :
    triangleTangent ops v0 v1 v2 = specTangent ops v0 v1 v2 := by
  simp only [triangleTangent, specTangent, tangentScale, specScale]
  rw [hc (ops.sub v2.m_texCoord.x v0.m_texCoord.x) (ops.sub v1.m_texCoord.y v0.m_texCoord.y)]

theorem specTangent_congr {F : Type} (ops : FloatOps F) (v0 v1 v2 w0 w1 w2 : Vertex3dUVNormal F)
    (h0 : geometry v0 = geometry w0) (h1 : geometry v1 = geometry w1)
    (h2 : geometry v2 = geometry w2) :
    specTangent ops v0 v1 v2 = specTangent ops w0 w1 w2 := by
  simp only [geometry, Prod.mk.injEq] at h0 h1 h2
  simp only [specTangent, specScale, h0.1, h0.2, h1.1, h1.2, h2.1, h2.2]

theorem addTangent_geometry {F : Type} (ops : FloatOps F) (t : Vec3 F) :
    ∀ (vs : List (Vertex3dUVNormal F)) (i : Nat),
      (addTangent ops vs i t).map geometry = vs.map geometry
  | [], _ => rfl
  | v :: vs, 0 => rfl
  | v :: vs, i + 1 => by
    simp only [addTangent, List.map_cons, addTangent_geometry ops t vs i]

theorem addTangent_get? {F : Type} (ops : FloatOps F) (t : Vec3 F) :
    ∀ (vs : List (Vertex3dUVNormal F)) (i k : Nat) (v : Vertex3dUVNormal F),
      vs.get? k = some v →
      (addTangent ops vs i t).get? k =
        some { v with m_tangent := sumFrom ops v.m_tangent (if i = k then [t] else []) }
  | [], _, k, v, h => by simp at h
  | w :: vs, 0, 0, v, h => by
    simp only [List.get?_cons_zero, Option.some.injEq] at h
    subst h
    simp [addTangent, sumFrom]
  | w :: vs, 0, k + 1, v, h => by
    simp only [List.get?_cons_succ] at h
    rw [if_neg (by omega)]
    simp only [addTangent, List.get?_cons_succ, h, sumFrom, List.foldl_nil]
  | w :: vs, i + 1, 0, v, h => by
    simp only [List.get?_cons_zero, Option.some.injEq] at h
    subst h
    simp [addTangent, sumFrom]
  | w :: vs, i + 1, k + 1, v, h => by
    simp only [List.get?_cons_succ] at h
    have := addTangent_get? ops t vs i k v h
    simp only [addTangent, List.get?_cons_succ, this, Nat.add_right_cancel_iff]

theorem addTangent_length {F : Type} (ops : FloatOps F) (t : Vec3 F) :
    ∀ (vs : List (Vertex3dUVNormal F)) (i : Nat), (addTangent ops vs i t).length = vs.length
  | [], _ => rfl
  | v :: vs, 0 => rfl
  | v :: vs, i + 1 => by simp [addTangent, addTangent_length ops t vs i]

theorem geometry_get? {F : Type} (cur1 cur : List (Vertex3dUVNormal F))
    (h : cur1.map geometry = cur.map geometry) (j : Nat) :
    (cur1.get? j = none ∧ cur.get? j = none) ∨
      ∃ v1 v, cur1.get? j = some v1 ∧ cur.get? j = some v ∧ geometry v1 = geometry v := by
  have hj : (cur1.map geometry).get? j = (cur.map geometry).get? j := by rw [h]
  simp only [List.get?_eq_getElem?, List.getElem?_map] at hj
  simp only [List.get?_eq_getElem?]
  cases h1 : cur1[j]? with
  | none =>
    cases h2 : cur[j]? with
    | none => exact Or.inl ⟨rfl, rfl⟩
    | some v => rw [h1, h2] at hj; simp at hj
  | some v1 =>
    cases h2 : cur[j]? with
    | none => rw [h1, h2] at hj; simp at hj
    | some v =>
      rw [h1, h2] at hj
      simp only [Option.map_some', Option.some.injEq] at hj
      exact Or.inr ⟨v1, v, rfl, rfl, hj⟩

theorem contributions_congr {F : Type} (ops : FloatOps F)
    (cur1 cur : List (Vertex3dUVNormal F)) (h : cur1.map geometry = cur.map geometry)
    (k : Nat) : ∀ idx : List Nat, contributions ops cur1 idx k = contributions ops cur idx k
  | [] => by simp [contributions]
  | [_] => by simp [contributions]
  | [_, _] => by simp [contributions]
  | i0 :: i1 :: i2 :: rest => by
    have ih := contributions_congr ops cur1 cur h k rest
    rcases geometry_get? cur1 cur h i0 with ⟨a0, b0⟩ | ⟨v0, w0, a0, b0, g0⟩
    · simp only [contributions, a0, b0]
    · rcases geometry_get? cur1 cur h i1 with ⟨a1, b1⟩ | ⟨v1, w1, a1, b1, g1⟩
      · simp only [contributions, a0, b0, a1, b1]
      · rcases geometry_get? cur1 cur h i2 with ⟨a2, b2⟩ | ⟨v2, w2, a2, b2, g2⟩
        · simp only [contributions, a0, b0, a1, b1, a2, b2]
        · simp only [contributions, a0, b0, a1, b1, a2, b2, ih,
            specTangent_congr ops v0 v1 v2 w0 w1 w2 g0 g1 g2]

theorem vertexAt_ok {F : Type} (vs : List (Vertex3dUVNormal F)) (i : Nat)
    (v : Vertex3dUVNormal F) (h : vertexAt vs i = .ok v) : vs.get? i = some v := by
  unfold vertexAt at h
  split at h
  · simp only [Except.ok.injEq] at h
    subst h
    assumption
  · cases h

/-- The accumulation loop gives every vertex the sum of the tangents of the
triangles that refer to it, added to the tangent it starts with. -/
theorem tangentPass_sum {F : Type} (ops : FloatOps F) (hc : MulCommutative ops) :
    ∀ (idx : List Nat) (cur acc : List (Vertex3dUVNormal F)),
      tangentPass ops idx cur = .ok acc →
      acc.length = cur.length ∧
      ∀ k v, cur.get? k = some v →
        acc.get? k = some { v with
          m_tangent := sumFrom ops v.m_tangent (contributions ops cur idx k) }
  | [], cur, acc, h => by
    simp only [tangentPass, Except.ok.injEq] at h
    subst h
    exact ⟨rfl, fun k v hv => by simp only [contributions, sumFrom, List.foldl_nil, hv]⟩
  | [_], cur, acc, h => by simp [tangentPass] at h
  | [_, _], cur, acc, h => by simp [tangentPass] at h
  | i0 :: i1 :: i2 :: rest, cur, acc, h => by
    unfold tangentPass at h
    cases h0 : vertexAt cur i0 with
    | error e => simp [h0] at h
    | ok v0 =>
      cases h1 : vertexAt cur i1 with
      | error e => simp [h0, h1] at h
      | ok v1 =>
        cases h2 : vertexAt cur i2 with
        | error e => simp [h0, h1, h2] at h
        | ok v2 =>
          simp only [h0, h1, h2] at h
          obtain ⟨hlen, hsum⟩ := tangentPass_sum ops hc rest _ acc h
          have g0 := vertexAt_ok _ _ _ h0
          have g1 := vertexAt_ok _ _ _ h1
          have g2 := vertexAt_ok _ _ _ h2
          refine ⟨by simpa [addTangent_length] using hlen, ?_⟩
          intro k v hv
          have s1 := addTangent_get? ops (triangleTangent ops v0 v1 v2) cur i0 k v hv
          have s2 := addTangent_get? ops (triangleTangent ops v0 v1 v2) _ i1 k _ s1
          have s3 := addTangent_get? ops (triangleTangent ops v0 v1 v2) _ i2 k _ s2
          have hfin := hsum k _ s3
          rw [hfin]
          have hgeo : (addTangent ops (addTangent ops (addTangent ops cur i0
              (triangleTangent ops v0 v1 v2)) i1 (triangleTangent ops v0 v1 v2)) i2
              (triangleTangent ops v0 v1 v2)).map geometry = cur.map geometry := by
            rw [addTangent_geometry, addTangent_geometry, addTangent_geometry]
          rw [contributions_congr ops _ cur hgeo k rest]
          simp only [contributions, g0, g1, g2, sumFrom, List.foldl_append,
            specTangent_eq ops hc]

theorem calculateTangents_ok {F : Type} (ops : FloatOps F) (m m1 : MeshData F)
    (h : CalculateTangents ops m = .ok m1) :
    ∃ acc, tangentPass ops m.m_indices m.m_vertices = .ok acc ∧
      m1 = { m with m_vertices := normalizeTangents ops acc } := by
  unfold CalculateTangents at h
  split at h
  · cases h
  · split at h
    · cases h
    · rename_i acc hacc
      split at h
      · cases h
      · simp only [Except.ok.injEq] at h
        exact ⟨acc, hacc, h.symm⟩

theorem vertexAt_of_lt {F : Type} (vs : List (Vertex3dUVNormal F)) (i : Nat)
    (h : i < vs.length) : ∃ v, vertexAt vs i = .ok v := by
  unfold vertexAt
  cases hg : vs.get? i with
  | some v => exact ⟨v, rfl⟩
  | none =>
    have := List.get?_eq_none.1 hg
    omega

theorem tangentPass_length {F : Type} (ops : FloatOps F) :
    ∀ (idx : List Nat) (cur acc : List (Vertex3dUVNormal F)),
      tangentPass ops idx cur = .ok acc → acc.length = cur.length
  | [], cur, acc, h => by
    simp only [tangentPass, Except.ok.injEq] at h
    subst h
    rfl
  | [_], cur, acc, h => by simp [tangentPass] at h
  | [_, _], cur, acc, h => by simp [tangentPass] at h
  | i0 :: i1 :: i2 :: rest, cur, acc, h => by
    unfold tangentPass at h
    cases h0 : vertexAt cur i0 with
    | error e => simp [h0] at h
    | ok v0 =>
      cases h1 : vertexAt cur i1 with
      | error e => simp [h0, h1] at h
      | ok v1 =>
        cases h2 : vertexAt cur i2 with
        | error e => simp [h0, h1, h2] at h
        | ok v2 =>
          simp only [h0, h1, h2] at h
          simpa [addTangent_length] using tangentPass_length ops rest _ acc h

/-- The accumulation loop ends normally when the index array holds whole
triangles whose indices refer to vertices. -/
theorem tangentPass_total {F : Type} (ops : FloatOps F) :
    ∀ (idx : List Nat) (cur : List (Vertex3dUVNormal F)),
      3 ∣ idx.length → (∀ i ∈ idx, i < cur.length) → ∃ acc, tangentPass ops idx cur = .ok acc
  | [], cur, _, _ => ⟨cur, rfl⟩
  | [_], _, h3, _ => by simp at h3
  | [_, _], _, h3, _ => by
    simp only [List.length_cons, List.length_nil] at h3
    omega
  | i0 :: i1 :: i2 :: rest, cur, h3, hlt => by
    obtain ⟨v0, g0⟩ := vertexAt_of_lt cur i0 (hlt i0 (by simp))
    obtain ⟨v1, g1⟩ := vertexAt_of_lt cur i1 (hlt i1 (by simp))
    obtain ⟨v2, g2⟩ := vertexAt_of_lt cur i2 (hlt i2 (by simp))
    unfold tangentPass
    simp only [g0, g1, g2]
    apply tangentPass_total ops rest
    · simp only [List.length_cons] at h3
      omega
    · intro i hi
      simp only [addTangent_length]
      exact hlt i (by simp [hi])

/-- The method `CalculateTangents` ends normally on a mesh of whole triangles
whose indices refer to vertices, with fewer than `2^32` entries in each array. -/
theorem calculateTangents_total {F : Type} (ops : FloatOps F) (m : MeshData F)
    (h3 : 3 ∣ m.m_indices.length) (hlt : ∀ i ∈ m.m_indices, i < m.m_vertices.length)
    (hi : m.m_indices.length < 4294967296) (hv : m.m_vertices.length < 4294967296) :
    ∃ m1, CalculateTangents ops m = .ok m1 := by
  obtain ⟨acc, hacc⟩ := tangentPass_total ops m.m_indices m.m_vertices h3 hlt
  have hlen := tangentPass_length ops _ _ acc hacc
  unfold CalculateTangents
  rw [if_neg (by omega), hacc]
  simp only
  rw [if_neg (by omega)]
  exact ⟨_, rfl⟩

theorem wholeOps_mulCommutative : MulCommutative wholeOps := by
  intro a b
  simp only [wholeOps]
  exact Int.mul_comm a b

theorem wholeOps_exact : ExactOnZeroOne wholeOps := by
  constructor <;> decide

theorem quarterOps_mulCommutative : MulCommutative quarterOps := by
  intro a b
  cases a <;> cases b <;> simp only [quarterOps, Qtr.mul]
  rename_i x y
  rw [Int.mul_comm y x]
  have hcond : (y < 0 ∧ x = 0 ∨ y = 0 ∧ x < 0) ↔ (x < 0 ∧ y = 0 ∨ x = 0 ∧ y < 0) := by
    constructor <;> rintro (⟨h1, h2⟩ | ⟨h1, h2⟩)
    · exact Or.inr ⟨h2, h1⟩
    · exact Or.inl ⟨h2, h1⟩
    · exact Or.inr ⟨h2, h1⟩
    · exact Or.inl ⟨h2, h1⟩
  simp only [hcond]

/-- C6: with a commutative float multiplication, `CalculateTangents` gives every
vertex, before normalisation, the tangent it starts with (zero after the parser)
plus the sum over all triangles of the index array, each visited once and counted
once for every corner that refers to the vertex, of `f * (dv2 * e1 - dv1 * e2)`
with `f = 1 / (du1 * dv2 - dv1 * du2)`; afterwards every vertex tangent is
normalised once, which multiplies each of its components by one over the square
root of `x*x + y*y + z*z` of the accumulated tangent, and nothing else of the
mesh changes. For the single triangle with positions `(0,0,0)`, `(1,0,0)`,
`(0,1,0)` and texture coordinates `(0,0)`, `(1,0)`, `(0,1)`, in an arithmetic that
is exact on 0 and 1, `f` is 1, and the tangent of all three vertices is `(1,0,0)`
before and after normalisation, which has unit length. For a square of side 4
made of two triangles, with texture coordinates of side 2, in floats that are
multiples of 1/4, the tangents before normalisation are `(4,0,0)` at the two
vertices shared by the triangles and `(2,0,0)` at the other two, and after
normalisation `(1,0,0)`, of unit length, at all four. -/
theorem calculateTangents_accumulates {F : Type} (ops : FloatOps F)
    (hc : MulCommutative ops) (m m1 : MeshData F) (h : CalculateTangents ops m = .ok m1) :
    (∃ acc, tangentPass ops m.m_indices m.m_vertices = .ok acc ∧
      acc.length = m.m_vertices.length ∧
      (∀ k v, m.m_vertices.get? k = some v →
        acc.get? k = some { v with
          m_tangent := sumFrom ops v.m_tangent (contributions ops m.m_vertices m.m_indices k) }) ∧
      m1.m_vertices =
        acc.map (fun v => { v with m_tangent := specNormalized ops v.m_tangent }) ∧
      (∀ k v, m.m_vertices.get? k = some v →
        m1.m_vertices.get? k = some { v with
          m_tangent := specNormalized ops
            (sumFrom ops v.m_tangent (contributions ops m.m_vertices m.m_indices k)) }) ∧
      m1.m_indices = m.m_indices) ∧
    (ExactOnZeroOne ops → ∀ n0 n1 n2 : Vec3 F,
      (∀ v0 v1 v2, (unitTriangle ops n0 n1 n2 (Vec3.zero ops) (Vec3.zero ops)
          (Vec3.zero ops)).m_vertices = [v0, v1, v2] →
        specScale ops v0 v1 v2 = ops.one ∧
        specTangent ops v0 v1 v2 = ⟨ops.one, ops.zero, ops.zero⟩) ∧
      tangentPass ops [0, 1, 2] (unitTriangle ops n0 n1 n2 (Vec3.zero ops) (Vec3.zero ops)
          (Vec3.zero ops)).m_vertices =
        .ok (unitTriangle ops n0 n1 n2 ⟨ops.one, ops.zero, ops.zero⟩
          ⟨ops.one, ops.zero, ops.zero⟩ ⟨ops.one, ops.zero, ops.zero⟩).m_vertices ∧
      CalculateTangents ops (unitTriangle ops n0 n1 n2 (Vec3.zero ops) (Vec3.zero ops)
          (Vec3.zero ops)) =
        .ok (unitTriangle ops n0 n1 n2 ⟨ops.one, ops.zero, ops.zero⟩
          ⟨ops.one, ops.zero, ops.zero⟩ ⟨ops.one, ops.zero, ops.zero⟩) ∧
      specSquaredLength ops ⟨ops.one, ops.zero, ops.zero⟩ = ops.one) ∧
    (tangentPass quarterOps (squareMesh ⟨.q 0, .q 0, .q 0⟩ ⟨.q 0, .q 0, .q 0⟩ ⟨.q 0, .q 0, .q 0⟩
          ⟨.q 0, .q 0, .q 0⟩).m_indices
        (squareMesh ⟨.q 0, .q 0, .q 0⟩ ⟨.q 0, .q 0, .q 0⟩ ⟨.q 0, .q 0, .q 0⟩
          ⟨.q 0, .q 0, .q 0⟩).m_vertices =
        .ok (squareMesh ⟨.q 16, .q 0, .q 0⟩ ⟨.q 8, .q 0, .q 0⟩ ⟨.q 16, .q 0, .q 0⟩
          ⟨.q 8, .q 0, .q 0⟩).m_vertices ∧
      CalculateTangents quarterOps (squareMesh ⟨.q 0, .q 0, .q 0⟩ ⟨.q 0, .q 0, .q 0⟩
          ⟨.q 0, .q 0, .q 0⟩ ⟨.q 0, .q 0, .q 0⟩) =
        .ok (squareMesh ⟨.q 4, .q 0, .q 0⟩ ⟨.q 4, .q 0, .q 0⟩ ⟨.q 4, .q 0, .q 0⟩
          ⟨.q 4, .q 0, .q 0⟩) ∧
      specSquaredLength quarterOps ⟨.q 16, .q 0, .q 0⟩ = .q 64 ∧
      specSquaredLength quarterOps ⟨.q 8, .q 0, .q 0⟩ = .q 16 ∧
      specSquaredLength quarterOps ⟨.q 4, .q 0, .q 0⟩ = quarterOps.one) := by
  refine ⟨?_, ?_, ?_⟩
  · obtain ⟨acc, hacc, rfl⟩ := calculateTangents_ok ops m m1 h
    obtain ⟨hlen, hsum⟩ := tangentPass_sum ops hc _ _ acc hacc
    refine ⟨acc, hacc, hlen, hsum, rfl, ?_, rfl⟩
    intro k v hv
    have hk := hsum k v hv
    simp only [normalizeTangents, List.get?_eq_getElem?, List.getElem?_map] at hk ⊢
    rw [hk]
    rfl
  · intro hx n0 n1 n2
    have hpass : tangentPass ops [0, 1, 2] (unitTriangle ops n0 n1 n2 (Vec3.zero ops)
        (Vec3.zero ops) (Vec3.zero ops)).m_vertices =
        .ok (unitTriangle ops n0 n1 n2 ⟨ops.one, ops.zero, ops.zero⟩
          ⟨ops.one, ops.zero, ops.zero⟩ ⟨ops.one, ops.zero, ops.zero⟩).m_vertices := by
      simp [tangentPass, unitTriangle, vertexAt, addTangent, triangleTangent, tangentScale,
        Vec3.sub, Vec3.add, Vec3.zero, hx.sub_zero_zero, hx.sub_one_zero, hx.mul_zero_zero,
        hx.mul_zero_one, hx.mul_one_zero, hx.mul_one_one, hx.div_one_one, hx.add_zero_zero,
        hx.add_zero_one]
    refine ⟨?_, hpass, ?_, ?_⟩
    · intro v0 v1 v2 hv
      simp only [unitTriangle, List.cons.injEq, and_true] at hv
      obtain ⟨rfl, rfl, rfl⟩ := hv
      simp [specTangent, specScale, Vec3.sub, hx.sub_zero_zero, hx.sub_one_zero,
        hx.mul_zero_zero, hx.mul_zero_one, hx.mul_one_zero, hx.mul_one_one, hx.div_one_one]
    · unfold CalculateTangents
      have hidx : (unitTriangle ops n0 n1 n2 (Vec3.zero ops) (Vec3.zero ops)
          (Vec3.zero ops)).m_indices = [0, 1, 2] := rfl
      rw [hidx, hpass]
      simp [unitTriangle, normalizeTangents, Vec3.normalize, Vec3.dot, hx.mul_zero_zero,
        hx.mul_zero_one, hx.mul_one_one, hx.add_zero_zero, hx.add_one_zero,
        hx.inversesqrt_one]
    · simp [specSquaredLength, hx.mul_zero_zero, hx.mul_one_one, hx.add_one_zero]
  · decide

theorem calculateTangents_accumulates_witness :
    MulCommutative quarterOps ∧
      CalculateTangents quarterOps (squareMesh ⟨.q 0, .q 0, .q 0⟩ ⟨.q 0, .q 0, .q 0⟩
          ⟨.q 0, .q 0, .q 0⟩ ⟨.q 0, .q 0, .q 0⟩) =
        .ok (squareMesh ⟨.q 4, .q 0, .q 0⟩ ⟨.q 4, .q 0, .q 0⟩ ⟨.q 4, .q 0, .q 0⟩
          ⟨.q 4, .q 0, .q 0⟩) ∧
      ∀ k v, (squareMesh ⟨.q 0, .q 0, .q 0⟩ ⟨.q 0, .q 0, .q 0⟩ ⟨.q 0, .q 0, .q 0⟩
          ⟨.q 0, .q 0, .q 0⟩).m_vertices.get? k = some v →
        (squareMesh ⟨.q 4, .q 0, .q 0⟩ ⟨.q 4, .q 0, .q 0⟩ ⟨.q 4, .q 0, .q 0⟩
          ⟨.q 4, .q 0, .q 0⟩).m_vertices.get? k = some { v with
          m_tangent := specNormalized quarterOps (sumFrom quarterOps v.m_tangent
            (contributions quarterOps
              (squareMesh ⟨.q 0, .q 0, .q 0⟩ ⟨.q 0, .q 0, .q 0⟩ ⟨.q 0, .q 0, .q 0⟩
                ⟨.q 0, .q 0, .q 0⟩).m_vertices
              (squareMesh ⟨.q 0, .q 0, .q 0⟩ ⟨.q 0, .q 0, .q 0⟩ ⟨.q 0, .q 0, .q 0⟩
                ⟨.q 0, .q 0, .q 0⟩).m_indices k)) } :=
  ⟨quarterOps_mulCommutative, by decide,
    (calculateTangents_accumulates quarterOps quarterOps_mulCommutative
      (squareMesh ⟨.q 0, .q 0, .q 0⟩ ⟨.q 0, .q 0, .q 0⟩ ⟨.q 0, .q 0, .q 0⟩ ⟨.q 0, .q 0, .q 0⟩)
      (squareMesh ⟨.q 4, .q 0, .q 0⟩ ⟨.q 4, .q 0, .q 0⟩ ⟨.q 4, .q 0, .q 0⟩ ⟨.q 4, .q 0, .q 0⟩)
      (by decide)).1.elim (fun _ hacc => hacc.2.2.2.2.1)⟩

/-! ### The mesh resource -/

/-- The basic and the instanced layout after `SetupBuffers`. -/
theorem setupBuffers_ok {F : Type} (m : MeshData F) (g : GLState F) (mesh : Mesh F)
    (g1 : GLState F) (h : SetupBuffers m g = .ok (mesh, g1)) :
    mesh = ⟨m, g.lastBuffer + 2, g.lastBuffer + 3, g.lastBuffer + 1, g.lastVertexArray + 1,
      g.lastVertexArray + 2⟩ ∧
    (g1.vertexArrays (g.lastVertexArray + 1)).elementBuffer = g.lastBuffer + 3 ∧
    (g1.vertexArrays (g.lastVertexArray + 2)).elementBuffer = g.lastBuffer + 3 ∧
    (g1.vertexArrays (g.lastVertexArray + 1)).attribs =
      Function.update (Function.update (Function.update (Function.update
        (fun _ => AttribSlot.fresh)
        0 ⟨some ⟨3, false, 44, 0, g.lastBuffer + 2⟩, true, 0⟩)
        1 ⟨some ⟨2, false, 44, 12, g.lastBuffer + 2⟩, true, 0⟩)
        2 ⟨some ⟨3, true, 44, 20, g.lastBuffer + 2⟩, true, 0⟩)
        3 ⟨some ⟨3, true, 44, 32, g.lastBuffer + 2⟩, true, 0⟩ ∧
    (g1.vertexArrays (g.lastVertexArray + 2)).attribs =
      Function.update (Function.update (Function.update (Function.update
      (Function.update (Function.update (Function.update (Function.update
        (fun _ => AttribSlot.fresh)
        0 ⟨some ⟨3, false, 44, 0, g.lastBuffer + 2⟩, true, 0⟩)
        1 ⟨some ⟨2, false, 44, 12, g.lastBuffer + 2⟩, true, 0⟩)
        2 ⟨some ⟨3, true, 44, 20, g.lastBuffer + 2⟩, true, 0⟩)
        3 ⟨some ⟨3, true, 44, 32, g.lastBuffer + 2⟩, true, 0⟩)
        4 ⟨some ⟨4, false, 64, 0, g.lastBuffer + 1⟩, true, 1⟩)
        5 ⟨some ⟨4, false, 64, 16, g.lastBuffer + 1⟩, true, 1⟩)
        6 ⟨some ⟨4, false, 64, 32, g.lastBuffer + 1⟩, true, 1⟩)
        7 ⟨some ⟨4, false, 64, 48, g.lastBuffer + 1⟩, true, 1⟩ := by
  unfold SetupBuffers at h
  simp only at h
  split at h
  · cases h
  · split at h
    · cases h
    · simp only [Except.ok.injEq, Prod.mk.injEq] at h
      obtain ⟨rfl, rfl⟩ := h
      refine ⟨rfl, ?_, ?_, ?_, ?_⟩
      · simp [glBindVertexArray, glBindElementArrayBuffer, glBindArrayBuffer, glBufferData,
          glGenBuffers, glGenVertexArrays, glEnableVertexAttribArray, updateSlot,
          vertexAttribPointers, glVertexAttribPointer, instanceAttrib, glVertexAttribDivisor]
      · simp [glBindVertexArray, glBindElementArrayBuffer, glBindArrayBuffer, glBufferData,
          glGenBuffers, glGenVertexArrays, glEnableVertexAttribArray, updateSlot,
          vertexAttribPointers, glVertexAttribPointer, instanceAttrib, glVertexAttribDivisor]
      · simp [glBindVertexArray, glBindElementArrayBuffer, glBindArrayBuffer, glBufferData,
          glGenBuffers, glGenVertexArrays, glEnableVertexAttribArray, updateSlot,
          vertexAttribPointers, glVertexAttribPointer, instanceAttrib, glVertexAttribDivisor,
          VertexArray.fresh, AttribSlot.fresh, sizeofVertex3dUVNormal, sizeofVec3, sizeofVec2,
          sizeofFloat, Function.update_idem]
        funext i
        simp only [Function.update_apply]
        split_ifs <;> rfl
      · simp [glBindVertexArray, glBindElementArrayBuffer, glBindArrayBuffer, glBufferData,
          glGenBuffers, glGenVertexArrays, glEnableVertexAttribArray, updateSlot,
          vertexAttribPointers, glVertexAttribPointer, instanceAttrib, glVertexAttribDivisor,
          VertexArray.fresh, AttribSlot.fresh, sizeofVertex3dUVNormal, sizeofVec3, sizeofVec2,
          sizeofFloat, Function.update_idem]
        funext i
        simp only [Function.update_apply]
        split_ifs <;> rfl

/-- The method `SetupBuffers` ends normally on a mesh with a vertex and an index. -/
theorem setupBuffers_total {F : Type} (m : MeshData F) (g : GLState F)
    (hv : m.m_vertices ≠ []) (hi : m.m_indices ≠ []) :
    ∃ r, SetupBuffers m g = .ok r := by
  unfold SetupBuffers
  simp only
  rw [if_neg (by simpa using hv), if_neg (by simpa using hi)]
  exact ⟨_, rfl⟩

/-- C8: `SetupBuffers` configures the attribute slots 0 to 3 of the basic and of
the instanced layout alike: 3, 2, 3 and 3 float components for position, texture
coordinate, normal and tangent, at the byte offsets 0, 12, 20 and 32 of a vertex
record, with the size of one vertex record as stride, read from the one vertex
buffer; both layouts use the one index buffer. The instanced layout differs only
in the slots 4 to 7, which the basic layout leaves untouched: slot `4 + i` holds
4 float components at byte offset `16 * i` with stride 64, read from the instance
buffer, with divisor 1. -/
theorem setupBuffers_layouts {F : Type} (m : MeshData F) (g : GLState F) (mesh : Mesh F)
    (g1 : GLState F) (h : SetupBuffers m g = .ok (mesh, g1)) :
    (g1.vertexArrays mesh.m_basicVAO).attribs 0 =
        ⟨some ⟨3, false, sizeofVertex3dUVNormal, 0, mesh.m_vertexBuffer⟩, true, 0⟩ ∧
      (g1.vertexArrays mesh.m_basicVAO).attribs 1 =
        ⟨some ⟨2, false, sizeofVertex3dUVNormal, 12, mesh.m_vertexBuffer⟩, true, 0⟩ ∧
      (g1.vertexArrays mesh.m_basicVAO).attribs 2 =
        ⟨some ⟨3, true, sizeofVertex3dUVNormal, 20, mesh.m_vertexBuffer⟩, true, 0⟩ ∧
      (g1.vertexArrays mesh.m_basicVAO).attribs 3 =
        ⟨some ⟨3, true, sizeofVertex3dUVNormal, 32, mesh.m_vertexBuffer⟩, true, 0⟩ ∧
      (∀ i, i < 4 → (g1.vertexArrays mesh.m_instanceVAO).attribs i =
        (g1.vertexArrays mesh.m_basicVAO).attribs i) ∧
      (g1.vertexArrays mesh.m_basicVAO).elementBuffer = mesh.m_indexBuffer ∧
      (g1.vertexArrays mesh.m_instanceVAO).elementBuffer = mesh.m_indexBuffer ∧
      (∀ i, i < 4 → (g1.vertexArrays mesh.m_instanceVAO).attribs (4 + i) =
        ⟨some ⟨4, false, 64, 16 * i, mesh.m_instanceBuffer⟩, true, 1⟩) ∧
      (∀ i, 4 ≤ i → (g1.vertexArrays mesh.m_basicVAO).attribs i = AttribSlot.fresh) ∧
      (∀ i, 8 ≤ i → (g1.vertexArrays mesh.m_instanceVAO).attribs i = AttribSlot.fresh) ∧
      mesh.m_vertexBuffer ≠ mesh.m_instanceBuffer ∧ mesh.m_basicVAO ≠ mesh.m_instanceVAO := by
  obtain ⟨rfl, e1, e2, a1, a2⟩ := setupBuffers_ok m g mesh g1 h
  simp only [a1, a2, e1, e2]
  refine ⟨rfl, rfl, rfl, rfl, ?_, trivial, trivial, ?_, ?_, ?_, by omega, by omega⟩
  · intro i hi
    simp only [Function.update_apply]
    split_ifs <;> first | rfl | omega
  · intro i hi
    have : i = 0 ∨ i = 1 ∨ i = 2 ∨ i = 3 := by omega
    rcases this with rfl | rfl | rfl | rfl <;> rfl
  · intro i hi
    simp only [Function.update_apply]
    split_ifs <;> first | rfl | omega
  · intro i hi
    simp only [Function.update_apply]
    split_ifs <;> first | rfl | omega

theorem setupBuffers_sample :
    SetupBuffers sampleMesh (GLState.initial Int) = .ok (sampleResource, sampleGL) := rfl

theorem setupBuffers_layouts_witness :
    (sampleGL.vertexArrays 2).attribs (4 + 1) = ⟨some ⟨4, false, 64, 16 * 1, 1⟩, true, 1⟩ ∧
      (sampleGL.vertexArrays 1).attribs 1 = ⟨some ⟨2, false, 44, 12, 2⟩, true, 0⟩ :=
  ⟨(setupBuffers_layouts sampleMesh (GLState.initial Int) sampleResource sampleGL
      setupBuffers_sample).2.2.2.2.2.2.2.1 1 (by decide),
    (setupBuffers_layouts sampleMesh (GLState.initial Int) sampleResource sampleGL
      setupBuffers_sample).2.1⟩

/-! ### Lines of no record kind -/

theorem processLine_other {F : Type} (ops : FloatOps F) (st : ParseState F) (l : List Char)
    (hl : lineKind l = .other) : processLine ops st l = .ok st := by
  simp [processLine, hl, pure, Except.pure]

theorem parseLines_filter {F : Type} (ops : FloatOps F) (lines : List (List Char)) :
    ∀ st : ParseState F, parseLines ops st (lines.filter isRecord) = parseLines ops st lines := by
  induction lines with
  | nil => intro st; rfl
  | cons l ls ih =>
    intro st
    by_cases hl : lineKind l = .other
    · have hf : isRecord l = false := by simp [isRecord, hl]
      rw [List.filter_cons_of_neg (by simp [hf])]
      simp only [parseLines, processLine_other ops st l hl]
      exact ih st
    · have hf : isRecord l = true := by simp [isRecord, hl]
      rw [List.filter_cons_of_pos hf]
      simp only [parseLines]
      cases processLine ops st l with
      | ok st1 => exact ih st1
      | error e => rfl

theorem cstr_cons_nul (rest : List Char) : cstr (Char.ofNat 0 :: rest) = [] := by
  simp [cstr, List.takeWhile]

theorem cstr_cons (c : Char) (rest : List Char) (hc : c ≠ Char.ofNat 0) :
    cstr (c :: rest) = c :: cstr rest := by
  have hc1 : (c != Char.ofNat 0) = true := by simp [hc]
  simp [cstr, List.takeWhile, hc1]

theorem strncmp0_two (a b : Char) (ha : a ≠ Char.ofNat 0) (hb : b ≠ Char.ofNat 0)
    (l : List Char) : strncmp0 [a, b] (cstr l) 2 = beginsWith [a, b] l := by
  match l with
  | [] => simp [strncmp0, cstr, beginsWith]
  | [c] =>
    by_cases hc : c = Char.ofNat 0
    · subst hc
      rw [cstr_cons_nul]
      simp [strncmp0, beginsWith]
    · rw [cstr_cons c [] hc]
      simp [strncmp0, cstr, beginsWith]
  | c :: d :: rest =>
    by_cases hc : c = Char.ofNat 0
    · subst hc
      rw [cstr_cons_nul]
      simp [strncmp0, beginsWith, ha]
    · rw [cstr_cons c _ hc]
      by_cases hd : d = Char.ofNat 0
      · subst hd
        rw [cstr_cons_nul]
        simp [strncmp0, beginsWith, hb]
      · rw [cstr_cons d _ hd]
        simp [strncmp0, beginsWith, Bool.decide_and]
        rfl

theorem strncmp0_one (a : Char) (ha : a ≠ Char.ofNat 0) (l : List Char) :
    strncmp0 [a] (cstr l) 1 = beginsWith [a] l := by
  match l with
  | [] => simp [strncmp0, cstr, beginsWith]
  | c :: rest =>
    by_cases hc : c = Char.ofNat 0
    · subst hc
      rw [cstr_cons_nul]
      simp [strncmp0, beginsWith, ha]
    · rw [cstr_cons c _ hc]
      simp [strncmp0, beginsWith]
      rfl

/-- The branch of the `strncmp` chain in terms of the text of the line. -/
theorem lineKind_eq (l : List Char) :
    lineKind l =
      if beginsWith ['v', ' '] l then .position
      else if beginsWith ['v', 't'] l then .texCoord
      else if beginsWith ['v', 'n'] l then .normal
      else if beginsWith ['f'] l then .face
      else .other := by
  unfold lineKind
  simp only
  rw [strncmp0_two 'v' ' ' (by decide) (by decide), strncmp0_two 'v' 't' (by decide) (by decide),
    strncmp0_two 'v' 'n' (by decide) (by decide), strncmp0_one 'f' (by decide)]

theorem isRecord_eq (l : List Char) : isRecord l = beginsWithMarker l := by
  unfold isRecord beginsWithMarker
  rw [lineKind_eq]
  cases h1 : beginsWith ['v', ' '] l <;> cases h2 : beginsWith ['v', 't'] l <;>
    cases h3 : beginsWith ['v', 'n'] l <;> cases h4 : beginsWith ['f'] l <;> simp

theorem lineKind_other_of_unmarked (l : List Char) (h : beginsWithMarker l = false) :
    lineKind l = .other := by
  have := isRecord_eq l
  rw [h] at this
  simpa [isRecord] using this

/-- C14, as stated, fails: the lines `foo` and `vtx 5 5` are none of the four
record kinds by their leading token, but the parser takes the first for a face
record and the second for a texture-coordinate record. With `foo` inserted the
run ends at an unchecked read instead of giving the mesh, and with `vtx 5 5`
inserted the vertices get the texture coordinate `(5, 5)` instead of `(0, 0)`. -/
theorem parse_takes_unknown_lines_for_records :
    leadingToken "foo".toList ∉ recordTokens ∧ leadingToken "vtx 5 5".toList ∉ recordTokens ∧
      parse wholeOps "v 0 0 0\nv 1 0 0\nv 0 1 0\nvt 0 0\nvn 0 0 1\nf 1/1/1 2/1/1 3/1/1\n" =
        .ok ⟨[⟨⟨0, 0, 0⟩, ⟨0, 0⟩, ⟨0, 0, 1⟩, ⟨0, 0, 0⟩⟩, ⟨⟨1, 0, 0⟩, ⟨0, 0⟩, ⟨0, 0, 1⟩, ⟨0, 0, 0⟩⟩,
          ⟨⟨0, 1, 0⟩, ⟨0, 0⟩, ⟨0, 0, 1⟩, ⟨0, 0, 0⟩⟩], [0, 1, 2]⟩ ∧
      parse wholeOps
          "foo\nv 0 0 0\nv 1 0 0\nv 0 1 0\nvt 0 0\nvn 0 0 1\nf 1/1/1 2/1/1 3/1/1\n" =
        (.error .outOfBoundsRead : Except Fault (MeshData Int)) ∧
      parse wholeOps
          "v 0 0 0\nv 1 0 0\nv 0 1 0\nvtx 5 5\nvt 0 0\nvn 0 0 1\nf 1/1/1 2/1/1 3/1/1\n" =
        .ok ⟨[⟨⟨0, 0, 0⟩, ⟨5, 5⟩, ⟨0, 0, 1⟩, ⟨0, 0, 0⟩⟩, ⟨⟨1, 0, 0⟩, ⟨5, 5⟩, ⟨0, 0, 1⟩, ⟨0, 0, 0⟩⟩,
          ⟨⟨0, 1, 0⟩, ⟨5, 5⟩, ⟨0, 0, 1⟩, ⟨0, 0, 0⟩⟩], [0, 1, 2]⟩ := by
  decide

/-- C14, amended: the parser tells the record kinds by the first characters of a
line, not by its leading token. A line that begins with none of the four markers
(the letter v and a blank, the letters vt, the letters vn, the letter f) is
ignored: two sources that have the same lines with a marker in the same order, so
that one is the other with lines without a marker inserted anywhere, give the
same outcome (the same vertex array and index array, and the one run fails only
if the other does); in particular one such line inserted anywhere changes
nothing. A line that begins with the letters vt, vn or f is taken for a
texture-coordinate, normal or face record whatever follows these letters. -/
theorem parse_ignores_other_lines {F : Type} (ops : FloatOps F) (content content1 : String)
    (h : (getlines content1).filter beginsWithMarker =
      (getlines content).filter beginsWithMarker) :
    parse ops content1 = parse ops content ∧
      (∀ (st : ParseState F) (pre post : List (List Char)) (l : List Char),
        beginsWithMarker l = false →
        parseLines ops st (pre ++ l :: post) = parseLines ops st (pre ++ post)) ∧
      (∀ (st : ParseState F) (l : List Char), beginsWithMarker l = false →
        processLine ops st l = .ok st) ∧
      (∀ l : List Char, beginsWith ['v', 't'] l = true → lineKind l = .texCoord) ∧
      (∀ l : List Char, beginsWith ['v', 'n'] l = true → lineKind l = .normal) ∧
      (∀ l : List Char, beginsWith ['f'] l = true → lineKind l = .face) := by
  have hfun : isRecord = beginsWithMarker := funext isRecord_eq
  refine ⟨?_, ?_, fun st l hl => processLine_other ops st l (lineKind_other_of_unmarked l hl),
    ?_, ?_, ?_⟩
  · unfold parse
    rw [← hfun] at h
    rw [← parseLines_filter ops (getlines content1), h, parseLines_filter]
  · intro st pre post l hl
    rw [← parseLines_filter ops (pre ++ l :: post), ← parseLines_filter ops (pre ++ post)]
    have hf : isRecord l = false := by rw [isRecord_eq, hl]
    simp [List.filter_append, List.filter_cons, hf]
  · intro l hl
    rw [lineKind_eq]
    match l, hl with
    | [], hl => simp [beginsWith] at hl
    | [c], hl => simp [beginsWith] at hl
    | c :: d :: rest, hl =>
      simp only [beginsWith, Bool.and_true, Bool.and_eq_true, beq_iff_eq] at hl
      obtain ⟨rfl, rfl⟩ := hl
      simp [beginsWith]
  · intro l hl
    rw [lineKind_eq]
    match l, hl with
    | [], hl => simp [beginsWith] at hl
    | [c], hl => simp [beginsWith] at hl
    | c :: d :: rest, hl =>
      simp only [beginsWith, Bool.and_true, Bool.and_eq_true, beq_iff_eq] at hl
      obtain ⟨rfl, rfl⟩ := hl
      simp [beginsWith]
  · intro l hl
    rw [lineKind_eq]
    match l, hl with
    | [], hl => simp [beginsWith] at hl
    | c :: rest, hl =>
      simp only [beginsWith, Bool.and_true, beq_iff_eq] at hl
      subst hl
      simp [beginsWith]

theorem parse_ignores_other_lines_witness :
    parse wholeOps
        "# a mesh\nv 0 0 0\nv 1 0 0\n\nv 0 1 0\nvt 0 0\no part\nvn 0 0 1\nf 1/1/1 2/1/1 3/1/1\ng end\n" =
      parse wholeOps "v 0 0 0\nv 1 0 0\nv 0 1 0\nvt 0 0\nvn 0 0 1\nf 1/1/1 2/1/1 3/1/1\n" :=
  (parse_ignores_other_lines wholeOps
    "v 0 0 0\nv 1 0 0\nv 0 1 0\nvt 0 0\nvn 0 0 1\nf 1/1/1 2/1/1 3/1/1\n"
    "# a mesh\nv 0 0 0\nv 1 0 0\n\nv 0 1 0\nvt 0 0\no part\nvn 0 0 1\nf 1/1/1 2/1/1 3/1/1\ng end\n"
    (by decide)).1

/-! ### An empty instance list -/

theorem addVertex_bounded {F : Type} (ops : FloatOps F) (mv mv1 : List (Vertex3dUVNormal F))
    (c : Corner F) (idx : Nat) (h : addVertex ops mv c = .ok (mv1, idx))
    (hb : VerticesBounded mv) : VerticesBounded mv1 := by
  unfold addVertex at h
  unfold VerticesBounded at hb ⊢
  split at h
  · split at h
    · simp only [Except.ok.injEq, Prod.mk.injEq] at h
      obtain ⟨rfl, _⟩ := h
      exact hb
    · cases h
  · split at h
    · simp only [Except.ok.injEq, Prod.mk.injEq] at h
      obtain ⟨rfl, _⟩ := h
      simp only [List.length_append, List.length_singleton]
      omega
    · cases h

theorem parseCorners_bounded {F : Type} (ops : FloatOps F) (st : ParseState F) (n : Nat) :
    ∀ (rest : List Char) (mv : List (Vertex3dUVNormal F)) (fi : List Nat)
      (r : List (Vertex3dUVNormal F) × List Nat),
      parseCorners ops st n rest mv fi = .ok r → VerticesBounded mv → VerticesBounded r.1 := by
  induction n with
  | zero => intro rest mv fi r h; simp [parseCorners] at h
  | succ n ih =>
    intro rest mv fi r h hb
    rcases parseCorners_succ_ok ops st n rest mv fi r h with
      ⟨_, rfl⟩ | ⟨c, rest1, mv1, idx, _, ha, hr⟩
    · exact hb
    · exact ih rest1 mv1 _ r hr (addVertex_bounded ops mv mv1 c idx ha hb)

/-- The state keeps whole triangles and a bounded vertex array. -/
theorem processLine_whole {F : Type} (ops : FloatOps F) (st st1 : ParseState F)
    (line : List Char) (h : processLine ops st line = .ok st1)
    (h3 : 3 ∣ st.m_indices.length) (hb : VerticesBounded st.m_vertices) :
    3 ∣ st1.m_indices.length ∧ VerticesBounded st1.m_vertices := by
  rcases processLine_ok ops st st1 line h with ⟨_, v, _, rfl⟩ | ⟨_, v, _, rfl⟩ |
    ⟨_, v, _, rfl⟩ | ⟨_, r, m, hr, hm, rfl⟩ | ⟨_, rfl⟩
  · exact ⟨h3, hb⟩
  · exact ⟨h3, hb⟩
  · exact ⟨h3, hb⟩
  · refine ⟨?_, parseCorners_bounded ops st _ _ _ _ r hr hb⟩
    obtain ⟨a, b, c, _, _, _, hcase⟩ := emitFace_ok _ _ _ hm
    rcases hcase with ⟨_, rfl⟩ | ⟨_, d, _, rfl⟩
    · simp only [List.length_append, List.length_cons, List.length_nil]
      omega
    · simp only [List.length_append, List.length_cons, List.length_nil]
      omega
  · exact ⟨h3, hb⟩

theorem parseLines_whole {F : Type} (ops : FloatOps F) (lines : List (List Char)) :
    ∀ (st st1 : ParseState F), parseLines ops st lines = .ok st1 →
      3 ∣ st.m_indices.length → VerticesBounded st.m_vertices →
      3 ∣ st1.m_indices.length ∧ VerticesBounded st1.m_vertices := by
  induction lines with
  | nil =>
    intro st st1 h h3 hb
    simp only [parseLines, Except.ok.injEq] at h
    subst h
    exact ⟨h3, hb⟩
  | cons line lines ih =>
    intro st st1 h h3 hb
    unfold parseLines at h
    split at h
    · rename_i st2 hp
      obtain ⟨g3, gb⟩ := processLine_whole ops st st2 line hp h3 hb
      exact ih st2 st1 h g3 gb
    · cases h

/-- C15: in a run that reaches the end of the source (every face line has at
least three corners with indices in range), every face line adds exactly 3
indices, or 6 when it has exactly four corners, so the length of the index array
is a multiple of 3; the loop of `CalculateTangents` then reads `m_indices[i]`,
`m_indices[i + 1]` and `m_indices[i + 2]` and the vertices they name without
leaving the arrays, and with fewer than `2^32` indices `CalculateTangents` ends
normally. -/
theorem parse_whole_triangles {F : Type} (ops : FloatOps F) (content : String)
    (m : MeshData F) (h : parse ops content = .ok m) :
    3 ∣ m.m_indices.length ∧
      (∃ acc, tangentPass ops m.m_indices m.m_vertices = .ok acc) ∧
      (m.m_indices.length < 4294967296 → ∃ m1, CalculateTangents ops m = .ok m1) ∧
      ∀ (st st1 : ParseState F) (line : List Char)
        (r : List (Vertex3dUVNormal F) × List Nat),
        lineKind line = .face → faceCorners ops st line = .ok r →
        processLine ops st line = .ok st1 →
        st1.m_indices.length = st.m_indices.length + (if r.2.length = 4 then 6 else 3) := by
  obtain ⟨st, hst, rfl⟩ := parse_ok ops content m h
  have hvalid := parseLines_valid ops _ _ st hst
    (by intro i hi; simp [ParseState.init] at hi)
  obtain ⟨h3, hb⟩ := parseLines_whole ops _ _ st hst
    (by simp [ParseState.init]) (by simp [ParseState.init, VerticesBounded])
  refine ⟨h3, tangentPass_total ops _ _ h3 hvalid, ?_, ?_⟩
  · intro hlen
    exact calculateTangents_total ops _ h3 hvalid hlen (by
      unfold VerticesBounded at hb
      simp only
      omega)
  · intro s0 s1 line r hk hr hp
    rcases processLine_ok ops s0 s1 line hp with ⟨hk1, _⟩ | ⟨hk1, _⟩ | ⟨hk1, _⟩ |
      ⟨_, r1, m1, hr1, hm, rfl⟩ | ⟨hk1, _⟩
    · rw [hk] at hk1; cases hk1
    · rw [hk] at hk1; cases hk1
    · rw [hk] at hk1; cases hk1
    · rw [hr] at hr1
      simp only [Except.ok.injEq] at hr1
      subst hr1
      obtain ⟨a, b, c, _, _, _, hcase⟩ := emitFace_ok _ _ _ hm
      rcases hcase with ⟨h4, rfl⟩ | ⟨h4, d, _, rfl⟩
      · simp [h4]
      · simp [h4]
    · rw [hk] at hk1; cases hk1

theorem parse_whole_triangles_witness :
    parse wholeOps sampleSource = .ok sampleMesh ∧ 3 ∣ sampleMesh.m_indices.length ∧
      ∃ acc, tangentPass wholeOps sampleMesh.m_indices sampleMesh.m_vertices = .ok acc :=
  ⟨parse_sampleSource,
    (parse_whole_triangles wholeOps sampleSource sampleMesh parse_sampleSource).1,
    (parse_whole_triangles wholeOps sampleSource sampleMesh parse_sampleSource).2.1⟩

/-! ### Repeated indices in a triangle -/

theorem same_symm {F : Type} (ops : FloatOps F) (hs : EqSymmetric ops) (a b : Corner F)
    (hab : a.same ops b = true) : b.same ops a = true := by
  simp only [Corner.same, Corner.sameAs, Corner.toVertex, Vec3.eq, Vec2.eq,
    Bool.and_eq_true] at hab ⊢
  obtain ⟨⟨⟨⟨a1, a2⟩, a3⟩, a4, a5⟩, ⟨a6, a7⟩, a8⟩ := hab
  exact ⟨⟨⟨⟨hs _ _ a1, hs _ _ a2⟩, hs _ _ a3⟩, hs _ _ a4, hs _ _ a5⟩,
    ⟨hs _ _ a6, hs _ _ a7⟩, hs _ _ a8⟩

theorem sameAs_corner {F : Type} (ops : FloatOps F) (c : Corner F) (v : Vertex3dUVNormal F) :
    c.sameAs ops v = c.same ops v.corner := rfl

theorem firstIndex_le {α : Type} (p : α → Bool) (l : List α) (i j : Nat) (a : α)
    (h : firstIndex p l = some j) (ha : l.get? i = some a) (hp : p a = true) : j ≤ i := by
  obtain ⟨_, _, _, hlt⟩ := firstIndex_some p l j h
  by_contra hcon
  have := hlt i a (by omega) ha
  rw [hp] at this
  cases this

theorem firstIndex_exists {α : Type} (p : α → Bool) (l : List α) (i : Nat) (a : α)
    (ha : l.get? i = some a) (hp : p a = true) : ∃ j, firstIndex p l = some j ∧ j ≤ i := by
  cases hf : firstIndex p l with
  | none =>
    have := firstIndex_none p l hf a (List.get?_mem ha)
    rw [hp] at this
    cases this
  | some j => exact ⟨j, rfl, firstIndex_le p l i j a hf ha hp⟩

/-- Of two corners of a run, the later one gets the index of the earlier one
exactly when it compares equal to it, for a symmetric and transitive `==`. -/
theorem assign_index_eq_iff {F : Type} (ops : FloatOps F) (hs : EqSymmetric ops)
    (ht : EqTransitive ops) (vs : List (Vertex3dUVNormal F))
    (pre mid post : List (Corner F)) (c d : Corner F) (ic id : Nat)
    (hc : (assign ops vs (pre ++ c :: (mid ++ d :: post))).2.get? pre.length = some ic)
    (hd : (assign ops vs (pre ++ c :: (mid ++ d :: post))).2.get?
      (pre ++ c :: mid).length = some id) :
    ic = id ↔ d.same ops c = true := by
  have e1 : pre ++ c :: (mid ++ d :: post) = (pre ++ c :: mid) ++ d :: post := by simp
  rw [assign_index] at hc
  rw [e1, assign_index] at hd
  have hV2 := assign_append ops pre (c :: mid) vs
  cases hf : firstIndex (c.sameAs ops) (assign ops vs pre).1 with
  | some i =>
    rw [hf] at hc
    simp only [Option.some.injEq] at hc
    subst hc
    obtain ⟨a, ha, hpa, hfirst⟩ := firstIndex_some _ _ _ hf
    obtain ⟨ext, hext, _⟩ := assign_extends ops mid (assign ops vs pre).1
    have hV : (assign ops vs (pre ++ c :: mid)).1 = (assign ops vs pre).1 ++ ext := by
      rw [hV2]
      simp only
      rw [assign_cons_some ops _ c mid i hf]
      exact hext
    rw [hV] at hd
    have ha2 : ((assign ops vs pre).1 ++ ext).get? i = some a :=
      get?_append_of_some _ _ _ _ ha
    have hilt : i < (assign ops vs pre).1.length := (List.get?_eq_some.1 ha).1
    constructor
    · intro hid
      subst hid
      cases hfd : firstIndex (d.sameAs ops) ((assign ops vs pre).1 ++ ext) with
      | some j =>
        rw [hfd] at hd
        simp only [Option.some.injEq] at hd
        subst hd
        obtain ⟨b, hb, hpb, _⟩ := firstIndex_some _ _ _ hfd
        rw [ha2] at hb
        simp only [Option.some.injEq] at hb
        subst hb
        rw [sameAs_corner] at hpa hpb
        exact same_trans ops ht d a.corner c hpb (same_symm ops hs c a.corner hpa)
      | none =>
        rw [hfd] at hd
        simp only [Option.some.injEq, List.length_append] at hd
        rw [← hd] at hilt
        exact absurd hilt (Nat.not_lt.2 (Nat.le_add_right _ _))
    · intro hdc
      rw [sameAs_corner] at hpa
      have hda : d.sameAs ops a = true := by
        rw [sameAs_corner]
        exact same_trans ops ht d c a.corner hdc hpa
      obtain ⟨j, hj, hle⟩ := firstIndex_exists (d.sameAs ops) _ i a ha2 hda
      rw [hj] at hd
      simp only [Option.some.injEq] at hd
      subst hd
      by_contra hne
      have hjlt : j < i := by omega
      obtain ⟨b, hb, hpb, _⟩ := firstIndex_some _ _ _ hj
      have hb1 : (assign ops vs pre).1.get? j = some b := by
        simp only [List.get?_eq_getElem?] at hb ⊢
        rw [List.getElem?_append_left (by omega)] at hb
        exact hb
      have hcb : c.sameAs ops b = true := by
        rw [sameAs_corner] at hpb ⊢
        exact same_trans ops ht c d b.corner (same_symm ops hs d c hdc) hpb
      have := hfirst j b hjlt hb1
      rw [hcb] at this
      cases this
  | none =>
    rw [hf] at hc
    simp only [Option.some.injEq] at hc
    subst hc
    have hnone := firstIndex_none _ _ hf
    obtain ⟨ext, hext, _⟩ :=
      assign_extends ops mid ((assign ops vs pre).1 ++ [c.toVertex ops])
    have hV : (assign ops vs (pre ++ c :: mid)).1 =
        (assign ops vs pre).1 ++ c.toVertex ops :: ext := by
      rw [hV2]
      simp only
      rw [assign_cons_none ops _ c mid hf]
      simp only
      rw [hext]
      simp
    rw [hV] at hd
    have hmid : ((assign ops vs pre).1 ++ c.toVertex ops :: ext).get?
        (assign ops vs pre).1.length = some (c.toVertex ops) := get?_middle _ _ _ _ rfl
    constructor
    · intro hid
      subst hid
      cases hfd : firstIndex (d.sameAs ops) ((assign ops vs pre).1 ++ c.toVertex ops :: ext) with
      | some j =>
        rw [hfd] at hd
        simp only [Option.some.injEq] at hd
        subst hd
        obtain ⟨b, hb, hpb, _⟩ := firstIndex_some _ _ _ hfd
        rw [hmid] at hb
        simp only [Option.some.injEq] at hb
        subst hb
        exact hpb
      | none =>
        rw [hfd] at hd
        simp only [Option.some.injEq, List.length_append, List.length_cons] at hd
        exact absurd hd (by
          intro hcon
          have h1 : (assign ops vs pre).1.length <
              (assign ops vs pre).1.length + (ext.length + 1) :=
            Nat.lt_add_of_pos_right (Nat.succ_pos _)
          rw [hcon] at h1
          exact Nat.lt_irrefl _ h1)
    · intro hdc
      obtain ⟨j, hj, hle⟩ := firstIndex_exists (d.sameAs ops) _ _ _ hmid hdc
      rw [hj] at hd
      simp only [Option.some.injEq] at hd
      subst hd
      by_contra hne
      have hjlt : j < (assign ops vs pre).1.length := by
        rcases Nat.lt_or_eq_of_le hle with h1 | h1
        · exact h1
        · exact absurd h1.symm hne
      obtain ⟨b, hb, hpb, _⟩ := firstIndex_some _ _ _ hj
      have hb1 : (assign ops vs pre).1.get? j = some b := by
        simp only [List.get?_eq_getElem?] at hb ⊢
        rw [List.getElem?_append_left hjlt] at hb
        exact hb
      have hcb : c.sameAs ops b = true := by
        rw [sameAs_corner] at hpb ⊢
        exact same_trans ops ht c d b.corner (same_symm ops hs d c hdc) hpb
      rw [hnone b (List.get?_mem hb1)] at hcb
      cases hcb

theorem log_index_eq_iff {F : Type} (ops : FloatOps F) (hs : EqSymmetric ops)
    (ht : EqTransitive ops) (vs : List (Vertex3dUVNormal F)) (log : List (CornerEvent F))
    (hlog : log.map (fun e => e.index) = (assign ops vs (log.map (fun e => e.corner))).2)
    (pre mid post : List (CornerEvent F)) (ea eb : CornerEvent F)
    (hsplit : log = pre ++ ea :: (mid ++ eb :: post)) :
    ea.index = eb.index ↔ eb.corner.same ops ea.corner = true := by
  subst hsplit
  have hcs : (pre ++ ea :: (mid ++ eb :: post)).map (fun e => e.corner) =
      pre.map (fun e => e.corner) ++ ea.corner ::
        (mid.map (fun e => e.corner) ++ eb.corner :: post.map (fun e => e.corner)) := by simp
  have his : (pre ++ ea :: (mid ++ eb :: post)).map (fun e => e.index) =
      pre.map (fun e => e.index) ++ ea.index ::
        (mid.map (fun e => e.index) ++ eb.index :: post.map (fun e => e.index)) := by simp
  rw [hcs, his] at hlog
  apply assign_index_eq_iff ops hs ht vs (pre.map (fun e => e.corner))
    (mid.map (fun e => e.corner)) (post.map (fun e => e.corner)) ea.corner eb.corner
  · rw [← hlog]
    exact get?_middle _ _ _ _ (by simp)
  · rw [← hlog]
    have : pre.map (fun e => e.index) ++ ea.index ::
        (mid.map (fun e => e.index) ++ eb.index :: post.map (fun e => e.index)) =
        (pre.map (fun e => e.index) ++ ea.index :: mid.map (fun e => e.index)) ++
          eb.index :: post.map (fun e => e.index) := by simp
    rw [this]
    exact get?_middle _ _ _ _ (by simp)

/-- C11, as stated, fails: a face line that names the same corner twice gives a
triangle with a repeated index. -/
theorem parse_repeated_corner :
    parse wholeOps "v 0 0 0\nv 1 0 0\nvt 0 0\nvn 0 0 1\nf 1/1/1 2/1/1 1/1/1\n" =
      .ok ⟨[⟨⟨0, 0, 0⟩, ⟨0, 0⟩, ⟨0, 0, 1⟩, ⟨0, 0, 0⟩⟩, ⟨⟨1, 0, 0⟩, ⟨0, 0⟩, ⟨0, 0, 1⟩, ⟨0, 0, 0⟩⟩],
        [0, 1, 0]⟩ := by
  decide

/-- C11, amended: the parser does not check that the corners of a face differ.
With a symmetric and transitive `==`, every face line that the parser takes has
at least three corners, and two corners of it get the same index exactly when the
later one compares equal to the earlier one in position, texture coordinate and
normal. So the triangle of the corners 0, 1, 2, and for exactly four corners the
triangle of the corners 0, 2, 3, has three pairwise distinct indices exactly when
its three corners pairwise do not compare equal. -/
theorem face_triangle_indices {F : Type} (ops : FloatOps F) (hs : EqSymmetric ops)
    (ht : EqTransitive ops) (st st1 : ParseState F) (line : List Char)
    (hk : lineKind line = .face) (h : processLine ops st line = .ok st1) :
    ∃ e0 e1 e2 rest, faceLog ops st line = e0 :: e1 :: e2 :: rest ∧
      (e0.index = e1.index ↔ e1.corner.same ops e0.corner = true) ∧
      (e0.index = e2.index ↔ e2.corner.same ops e0.corner = true) ∧
      (e1.index = e2.index ↔ e2.corner.same ops e1.corner = true) ∧
      (rest.length ≠ 1 → st1.m_indices = st.m_indices ++ [e0.index, e1.index, e2.index]) ∧
      ∀ e3, rest = [e3] →
        st1.m_indices =
          st.m_indices ++ [e0.index, e1.index, e2.index, e0.index, e2.index, e3.index] ∧
        (e0.index = e3.index ↔ e3.corner.same ops e0.corner = true) ∧
        (e2.index = e3.index ↔ e3.corner.same ops e2.corner = true) := by
  rcases processLine_ok ops st st1 line h with ⟨hk1, _⟩ | ⟨hk1, _⟩ | ⟨hk1, _⟩ |
    ⟨_, r, m, hr, hm, rfl⟩ | ⟨hk1, _⟩
  · rw [hk] at hk1; cases hk1
  · rw [hk] at hk1; cases hk1
  · rw [hk] at hk1; cases hk1
  · have hidx := faceCorners_faceLog ops st line r hr
    have hlog : (faceLog ops st line).map (fun e => e.index) =
        (assign ops st.m_vertices ((faceLog ops st line).map (fun e => e.corner))).2 :=
      (parseCorners_assign ops st _ _ _ _ r hr).2.2
    obtain ⟨a, b, c, ha, hb, hc, hcase⟩ := emitFace_ok _ _ _ hm
    rw [hidx] at ha hb hc hcase
    rcases hL : faceLog ops st line with _ | ⟨e0, _ | ⟨e1, _ | ⟨e2, rest⟩⟩⟩
    · rw [hL] at hc; simp at hc
    · rw [hL] at hc; simp at hc
    · rw [hL] at hc; simp at hc
    · rw [hL] at ha hb hc hcase
      simp only [List.map_cons, List.get?_cons_zero, List.get?_cons_succ,
        Option.some.injEq] at ha hb hc
      subst ha hb hc
      refine ⟨e0, e1, e2, rest, rfl,
        log_index_eq_iff ops hs ht _ _ hlog [] [] (e2 :: rest) e0 e1 (by rw [hL]; rfl),
        log_index_eq_iff ops hs ht _ _ hlog [] [e1] rest e0 e2 (by rw [hL]; rfl),
        log_index_eq_iff ops hs ht _ _ hlog [e0] [] rest e1 e2 (by rw [hL]; rfl), ?_, ?_⟩
      · intro hne
        rcases hcase with ⟨_, rfl⟩ | ⟨h4, _⟩
        · rfl
        · simp only [List.map_cons, List.length_cons, List.length_map] at h4
          omega
      · intro e3 hrest
        subst hrest
        refine ⟨?_,
          log_index_eq_iff ops hs ht _ _ hlog [] [e1, e2] [] e0 e3 (by rw [hL]; rfl),
          log_index_eq_iff ops hs ht _ _ hlog [e0, e1] [] [] e2 e3 (by rw [hL]; rfl)⟩
        rcases hcase with ⟨h4, _⟩ | ⟨_, d, hd, rfl⟩
        · simp at h4
        · simp only [List.map_cons, List.map_nil, List.get?_cons_zero, List.get?_cons_succ,
            Option.some.injEq] at hd
          subst hd
          simp
  · rw [hk] at hk1; cases hk1

theorem wholeOps_symmetric : EqSymmetric wholeOps := by
  intro a b hab
  simp only [wholeOps, decide_eq_true_eq] at hab ⊢
  exact hab.symm

theorem face_triangle_indices_witness :
    ∃ e0 e1 e2 rest, faceLog wholeOps sampleStreams "f 1/1/1 2/2/1 1/1/1".toList =
        e0 :: e1 :: e2 :: rest ∧
      (e0.index = e1.index ↔ e1.corner.same wholeOps e0.corner = true) ∧
      (e0.index = e2.index ↔ e2.corner.same wholeOps e0.corner = true) ∧
      (e1.index = e2.index ↔ e2.corner.same wholeOps e1.corner = true) ∧
      (rest.length ≠ 1 →
        ([0, 1, 0] : List Nat) = [] ++ [e0.index, e1.index, e2.index]) ∧
      ∀ e3, rest = [e3] →
        ([0, 1, 0] : List Nat) =
          [] ++ [e0.index, e1.index, e2.index, e0.index, e2.index, e3.index] ∧
        (e0.index = e3.index ↔ e3.corner.same wholeOps e0.corner = true) ∧
        (e2.index = e3.index ↔ e3.corner.same wholeOps e2.corner = true) :=
  face_triangle_indices wholeOps wholeOps_symmetric wholeOps_transitive sampleStreams
    { sampleStreams with
      m_vertices := [⟨⟨0, 0, 0⟩, ⟨0, 0⟩, ⟨0, 0, 1⟩, ⟨0, 0, 0⟩⟩,
        ⟨⟨1, 0, 0⟩, ⟨1, 0⟩, ⟨0, 0, 1⟩, ⟨0, 0, 0⟩⟩],
      m_indices := [0, 1, 0] }
    "f 1/1/1 2/2/1 1/1/1".toList (by decide) (by decide)

/-! ### A triangle with a zero determinant -/

end ObjMesh
